import Mathlib

/-!
# Verification of the zonal raster aggregation engine (`zonal_agg.py`)

A shallow embedding of the core of the repository: affine-transform
derivation from a grid's coordinate axes, polygon rasterization into an
integer zone raster, NaN-aware zonal statistical reduction, and per-day
grouping (`zonal_aggregation` and `daily_aggregation` in `src/zonal_agg.py`).

Modelling conventions:
* Cell values are `Option ℚ`; `none` is the missing-value sentinel (NaN).
  A statistic that comes out as NaN in the Python code is likewise `none`.
* A 2-D data slice is a function `ℕ → ℕ → Option ℚ` over (row, col) pixel
  indices; the grid's axis lists fix the in-range shape (rows, cols).
* The numpy/xarray reductions (`mean`, `min`, `max`, `sum` with their
  default skip-NaN semantics) are order-insensitive folds over the cells;
  they are embedded as folds over the cell stream enumerated in
  (time, row, col) order.
* Exceptions are `Except`: indexing a coordinate axis out of range (what
  `historical_data['longitude'][1]` does on a one-sample axis) becomes
  `DError.indexError`.
* `rasterio.features.rasterize` is external library code; it is modelled
  from the spec (sequential burning, fill 0, later shapes replace earlier
  ones), with each polygon's pixel coverage under a transform abstracted
  into a `covers` predicate.
-/

/-- Error kinds for transform derivation. `indexError` is the unnamed
out-of-range indexing failure Python raises; `insufficientResolution` is
the named error the spec prescribes (present in the type so the spec's
claim is statable; the code never produces it). -/
inductive DError where
  | indexError : DError
  | insufficientResolution : DError
deriving DecidableEq

/-- Decidable equality of `Except` results, for evaluating the embedded
functions on concrete inputs. -/
instance exceptDecEq {E A : Type} [DecidableEq E] [DecidableEq A] :
    DecidableEq (Except E A) := fun x y =>
  match x, y with
  | .ok a, .ok b =>
      if h : a = b then isTrue (by rw [h])
      else isFalse (by intro hc; cases hc; exact h rfl)
  | .error e, .error f =>
      if h : e = f then isTrue (by rw [h])
      else isFalse (by intro hc; cases hc; exact h rfl)
  | .ok _, .error _ => isFalse (by intro hc; cases hc)
  | .error _, .ok _ => isFalse (by intro hc; cases hc)

/-- Six-parameter affine transform `(a, b, c, d, e, f)` in the layout of
the Python `affine` library: `x = a·col + b·row + c`, `y = d·col + e·row + f`.
So `a` is the pixel width, `e` the pixel height, `(c, f)` the origin. -/
structure Affine where
  a : ℚ
  b : ℚ
  c : ℚ
  d : ℚ
  e : ℚ
  f : ℚ
deriving DecidableEq

/-- `Affine.translation(x, y)` of the Python `affine` library. -/
def Affine.translation (x y : ℚ) : Affine := ⟨1, 0, x, 0, 1, y⟩

/-- `Affine.scale(sx, sy)` of the Python `affine` library. -/
def Affine.scale (sx sy : ℚ) : Affine := ⟨sx, 0, 0, 0, sy, 0⟩

/-- Composition (`*`) of two affine transforms, as 3×3 matrix product. -/
def Affine.mul (m n : Affine) : Affine :=
  ⟨m.a * n.a + m.b * n.d, m.a * n.b + m.b * n.e, m.a * n.c + m.b * n.f + m.c,
   m.d * n.a + m.e * n.d, m.d * n.b + m.e * n.e, m.d * n.c + m.e * n.f + m.f⟩

/-- The grid: ordered latitude and longitude sample sequences
(`historical_data['latitude']` / `['longitude']`). -/
structure Grid where
  lats : List ℚ
  lons : List ℚ

/-- Transform derivation, lines 57–63 of `zonal_agg.py`:
`Affine.translation(lon[0], lat[0]) * Affine.scale(lon[1]-lon[0], lat[1]-lat[0])`.
Each axis access out of range raises Python's IndexError, embedded as
`DError.indexError`. -/
def deriveTransform (lats lons : List ℚ) : Except DError Affine :=
  match lons.get? 0, lats.get? 0, lons.get? 1, lats.get? 1 with
  | some x0, some y0, some x1, some y1 =>
      .ok ((Affine.translation x0 y0).mul (Affine.scale (x1 - x0) (y1 - y0)))
  | _, _, _, _ => .error .indexError

/-- A named polygon. `location` is the zone name column of the
GeoDataFrame; `covers` abstracts which pixel cells the polygon's geometry
occupies under a given transform. Modelled from the spec: the concrete
geometry-to-cells test lives in the external `rasterio` library
(`all_touched=True` coverage), so it is kept abstract here. -/
structure Polygon where
  location : String
  covers : Affine → ℕ → ℕ → Bool

/-- Line 66 of `zonal_agg.py`:
`shapes = [(geom, i + 1) for i, geom in enumerate(geopolygons.geometry)]`. -/
def shapesOf (polys : List Polygon) : List (Polygon × ℕ) :=
  polys.enum.map (fun ip => (ip.2, ip.1 + 1))

/-- One sequential burn step: a shape that covers the cell overwrites the
accumulated id, otherwise the accumulator is kept. -/
def burnStep (tr : Affine) (r c : ℕ) (acc : ℕ) (s : Polygon × ℕ) : ℕ :=
  if s.1.covers tr r c then s.2 else acc

/-- Modelled from the spec: `rasterio.features.rasterize(shapes, out_shape,
transform, fill=0, all_touched=True, dtype=int32)` — sequential burning of
the shapes onto a `(rows, cols)` raster initialised with the fill value 0,
later shapes replacing earlier ones on the cells they cover. -/
def rasterize (shapes : List (Polygon × ℕ)) (tr : Affine) (rows cols : ℕ) :
    ℕ → ℕ → ℕ :=
  fun r c =>
    if r < rows ∧ c < cols then shapes.foldl (burnStep tr r c) 0 else 0

/-- A timestamp of the `valid_time` coordinate: calendar date (as a day
number) plus the intra-day part (hour); grouping uses only the date. -/
structure Stamp where
  date : ℕ
  hour : ℕ
deriving DecidableEq

/-- A 2-D data slice: (row, col) ↦ cell value, `none` = NaN sentinel. -/
abbrev Slice := ℕ → ℕ → Option ℚ

/-- The time-series cube: the grid plus the ordered `valid_time` sequence,
each timestamp carrying its 2-D slice. -/
structure Cube where
  grid : Grid
  times : List (Stamp × Slice)

/-- Line 78 of `zonal_agg.py`: `np.broadcast_to(mask, historical_data.shape)`
— the 2-D zone raster repeated unchanged along the time axis. -/
def broadcastMask (mask : ℕ → ℕ → ℕ) : ℕ → ℕ → ℕ → ℕ :=
  fun _ r c => mask r c

/-- The zone id the broadcast mask assigns to cell (r, c) at time index t. -/
def zoneOfCell (mask : ℕ → ℕ → ℕ) (t r c : ℕ) : ℕ :=
  broadcastMask mask t r c

/-- All pixel positions of a (rows, cols) raster in row-major order. -/
def cellsOf (rows cols : ℕ) : List (ℕ × ℕ) :=
  (List.range rows).flatMap (fun r => (List.range cols).map (fun c => (r, c)))

/-- The masked cell stream of one zone over a list of time slices, in
(time, row, col) order, starting at time index `t`: the embedding of
`values = historical_data.where(masker == polygon_id)` — a cell keeps its
value where the broadcast mask equals the polygon id and becomes the NaN
sentinel elsewhere. -/
def maskedStream (rows cols : ℕ) (mask : ℕ → ℕ → ℕ) (pid : ℕ) :
    ℕ → List (Stamp × Slice) → List (Option ℚ)
  | _, [] => []
  | t, e :: rest =>
      (cellsOf rows cols).map
        (fun p => if zoneOfCell mask t p.1 p.2 = pid then e.2 p.1 p.2 else none)
      ++ maskedStream rows cols mask pid (t + 1) rest

/-- Minimum of two possibly-NaN values, NaN skipped (identity). -/
def oMin (x y : Option ℚ) : Option ℚ :=
  match x, y with
  | none, b => b
  | some a, none => some a
  | some a, some b => some (min a b)

/-- Maximum of two possibly-NaN values, NaN skipped (identity). -/
def oMax (x y : Option ℚ) : Option ℚ :=
  match x, y with
  | none, b => b
  | some a, none => some a
  | some a, some b => some (max a b)

/-- `values.min()` with default skip-NaN semantics: minimum over the
non-sentinel cells, NaN if there are none. -/
def nanMin (l : List (Option ℚ)) : Option ℚ := l.foldr oMin none

/-- `values.max()` with default skip-NaN semantics. -/
def nanMax (l : List (Option ℚ)) : Option ℚ := l.foldr oMax none

/-- `values.sum()` with default skip-NaN semantics (`nansum`): sentinel
cells contribute 0, and the empty reduction is 0 — never NaN. -/
def nanSum (l : List (Option ℚ)) : ℚ := l.foldr (fun v acc => v.getD 0 + acc) 0

/-- Number of non-sentinel cells in the stream (the masked-set size). -/
def nanCount (l : List (Option ℚ)) : ℕ := l.countP (fun v => v.isSome)

/-- `values.mean()` with default skip-NaN semantics: sum of the valid
cells over their count, NaN when there are none. -/
def nanMean (l : List (Option ℚ)) : Option ℚ :=
  if nanCount l = 0 then none else some (nanSum l / (nanCount l : ℚ))

/-- The four per-zone statistic lists `zonal_aggregation` returns
(each entry `none` when the Python float is NaN). -/
structure ZonalResult where
  means : List (Option ℚ)
  maxs : List (Option ℚ)
  mins : List (Option ℚ)
  totals : List (Option ℚ)
deriving DecidableEq

/-- `zonal_aggregation` (lines 41–106 of `zonal_agg.py`): derive the
affine transform from the first two samples of each axis, rasterize the
polygons onto the grid shape with ids 1..N, broadcast the mask along the
time axis, and for each polygon id compute mean/max/min/sum of the masked
data with skip-NaN semantics. -/
def zonal_aggregation (cube : Cube) (polys : List Polygon) :
    Except DError ZonalResult :=
  match deriveTransform cube.grid.lats cube.grid.lons with
  | .error err => .error err
  | .ok tr =>
      let rows := cube.grid.lats.length
      let cols := cube.grid.lons.length
      let mask := rasterize (shapesOf polys) tr rows cols
      let ids := List.range' 1 polys.length
      .ok
        { means := ids.map (fun pid => nanMean (maskedStream rows cols mask pid 0 cube.times))
          maxs := ids.map (fun pid => nanMax (maskedStream rows cols mask pid 0 cube.times))
          mins := ids.map (fun pid => nanMin (maskedStream rows cols mask pid 0 cube.times))
          totals := ids.map (fun pid => some (nanSum (maskedStream rows cols mask pid 0 cube.times))) }

/-- Insert a date into an ascending duplicate-free date list, keeping it
ascending and duplicate-free. -/
def insertAsc (d : ℕ) : List ℕ → List ℕ
  | [] => [d]
  | x :: xs => if d < x then d :: x :: xs else if d = x then x :: xs else x :: insertAsc d xs

/-- The sorted unique date keys of a timestamp list — the group keys of
`historical_data.groupby('valid_time.date')` (unique dates, ascending). -/
def uniqueDates (times : List (Stamp × Slice)) : List ℕ :=
  (times.map (fun e => e.1.date)).foldr insertAsc []

/-- `groupby('valid_time.date')`: for each unique date in ascending order,
the sub-sequence of timestamps falling on that date (chronological order
within the group preserved). -/
def groupByDate (times : List (Stamp × Slice)) : List (ℕ × List (Stamp × Slice)) :=
  (uniqueDates times).map (fun d => (d, times.filter (fun e => e.1.date = d)))

/-- One printed output row of `daily_aggregation`: the columns
`['date', 'location', 'mean_value', 'max_value', 'min_value', 'total_value']`. -/
structure Row where
  date : ℕ
  location : String
  mean_value : Option ℚ
  max_value : Option ℚ
  min_value : Option ℚ
  total_value : Option ℚ
deriving DecidableEq

/-- The rows printed for one day: the geopolygon table (in input polygon
order) with the date column and the four zonal statistic columns attached. -/
def rowsFor (day : ℕ) (polys : List Polygon) (res : ZonalResult) : List Row :=
  (List.range polys.length).map (fun i =>
    { date := day
      location := ((polys.get? i).map Polygon.location).getD ""
      mean_value := res.means.getD i none
      max_value := res.maxs.getD i none
      min_value := res.mins.getD i none
      total_value := res.totals.getD i none })

/-- `daily_aggregation` (lines 109–139 of `zonal_agg.py`): group the cube
by calendar date, call `zonal_aggregation` on each day's sub-cube, and
print the per-day table. The Python function returns `None`; its
observable output is the concatenated sequence of printed rows, which is
what this embedding returns (an axis indexing error propagates). -/
def daily_aggregation (cube : Cube) (polys : List Polygon) :
    Except DError (List Row) := do
  let tables ← (groupByDate cube.times).mapM (fun g => do
    let res ← zonal_aggregation ⟨cube.grid, g.2⟩ polys
    pure (rowsFor g.1 polys res))
  pure tables.flatten

/-- Per-zone reduction against a fixed, precomputed zone raster (the body
of the `zonal_aggregation` statistics loop, with the mask supplied). -/
def reduceWithMask (rows cols : ℕ) (mask : ℕ → ℕ → ℕ) (n : ℕ)
    (times : List (Stamp × Slice)) : ZonalResult :=
  let ids := List.range' 1 n
  { means := ids.map (fun pid => nanMean (maskedStream rows cols mask pid 0 times))
    maxs := ids.map (fun pid => nanMax (maskedStream rows cols mask pid 0 times))
    mins := ids.map (fun pid => nanMin (maskedStream rows cols mask pid 0 times))
    totals := ids.map (fun pid => some (nanSum (maskedStream rows cols mask pid 0 times))) }

/-- The "compute the zone raster once and reuse it for every day" variant
the spec describes: derive the transform and rasterize a single time, then
reduce each day bucket against that shared raster. -/
def daily_aggregation_shared (cube : Cube) (polys : List Polygon) :
    Except DError (List Row) :=
  match deriveTransform cube.grid.lats cube.grid.lons with
  | .error err => .error err
  | .ok tr =>
      let rows := cube.grid.lats.length
      let cols := cube.grid.lons.length
      let mask := rasterize (shapesOf polys) tr rows cols
      .ok ((groupByDate cube.times).flatMap (fun g =>
        rowsFor g.1 polys (reduceWithMask rows cols mask polys.length g.2)))

/-- The masked cell set as the spec's §4.3 defines it:
`{valueSlice[r,c] : zoneRaster[r,c] == z and valueSlice[r,c] is not the
missing-value sentinel}`, collected over the bucket's slices in
(time, row, col) order. -/
def specMaskedCells (rows cols : ℕ) (mask : ℕ → ℕ → ℕ) (z : ℕ)
    (times : List (Stamp × Slice)) : List ℚ :=
  times.flatMap (fun e =>
    (cellsOf rows cols).filterMap (fun p =>
      match e.2 p.1 p.2 with
      | some v => if mask p.1 p.2 = z then some v else none
      | none => none))

/-- Minimum of a list of rationals (`none` on the empty list). -/
def minQ : List ℚ → Option ℚ
  | [] => none
  | a :: l => match minQ l with
    | none => some a
    | some b => some (min a b)

/-- Maximum of a list of rationals (`none` on the empty list). -/
def maxQ : List ℚ → Option ℚ
  | [] => none
  | a :: l => match maxQ l with
    | none => some a
    | some b => some (max a b)

/-- Sum of a list of rationals. -/
def sumQ : List ℚ → ℚ
  | [] => 0
  | a :: l => a + sumQ l

/-- Per-cell reduction along the time axis — the spec's §4.4
"hour-to-day resampling": each grid cell is reduced over the bucket's
timestamps with a skip-NaN reducer, yielding one 2-D slice. -/
def timeReduceSlice (red : List (Option ℚ) → Option ℚ)
    (times : List (Stamp × Slice)) : Slice :=
  fun r c => red (times.map (fun e => e.2 r c))

/-- The pixel positions the zone raster assigns to zone `z`. -/
def zoneCells (rows cols : ℕ) (mask : ℕ → ℕ → ℕ) (z : ℕ) : List (ℕ × ℕ) :=
  (cellsOf rows cols).filter (fun p => mask p.1 p.2 = z)

/-- The masked cell stream of a single 2-D slice (one row of the
time-major stream). -/
def sliceStream (rows cols : ℕ) (mask : ℕ → ℕ → ℕ) (pid : ℕ) (s : Slice) :
    List (Option ℚ) :=
  (cellsOf rows cols).map (fun p => if mask p.1 p.2 = pid then s p.1 p.2 else none)

/-- Mean of a list of rationals (`none` on the empty list). -/
def meanQ (l : List ℚ) : Option ℚ :=
  if l = [] then none else some (sumQ l / (l.length : ℚ))

section FoldOp

variable {α β : Type} (op : β → β → β) (e : β)

theorem foldr_op_init (hassoc : ∀ a b c, op (op a b) c = op a (op b c))
    (hid : ∀ a, op e a = a) (l : List β) (x : β) :
    l.foldr op x = op (l.foldr op e) x := by
  induction l with
  | nil => simp [hid]
  | cons a l ih => simp [List.foldr_cons, ih, hassoc]

theorem foldr_op_append (hassoc : ∀ a b c, op (op a b) c = op a (op b c))
    (hid : ∀ a, op e a = a) (l₁ l₂ : List β) :
    (l₁ ++ l₂).foldr op e = op (l₁.foldr op e) (l₂.foldr op e) := by
  rw [List.foldr_append, foldr_op_init op e hassoc hid]

theorem foldr_op_flatMap (hassoc : ∀ a b c, op (op a b) c = op a (op b c))
    (hid : ∀ a, op e a = a) (l : List α) (h : α → List β) :
    (l.flatMap h).foldr op e = (l.map (fun x => (h x).foldr op e)).foldr op e := by
  induction l with
  | nil => rfl
  | cons a l ih =>
    rw [List.flatMap_cons, foldr_op_append op e hassoc hid, ih, List.map_cons,
      List.foldr_cons]

theorem foldr_op_const_e (hid : ∀ a, op e a = a) (l : List α) :
    (l.map (fun _ => e)).foldr op e = e := by
  induction l with
  | nil => rfl
  | cons a l ih =>
    rw [List.map_cons, List.foldr_cons, ih]
    exact hid e

theorem foldr_op_map_op (hassoc : ∀ a b c, op (op a b) c = op a (op b c))
    (hcomm : ∀ a b, op a b = op b a) (hid : ∀ a, op e a = a)
    (l : List α) (g h : α → β) :
    (l.map (fun x => op (g x) (h x))).foldr op e =
      op ((l.map g).foldr op e) ((l.map h).foldr op e) := by
  induction l with
  | nil => simp [hid]
  | cons a l ih =>
    simp only [List.map_cons, List.foldr_cons, ih]
    rw [hassoc, ← hassoc (h a), hcomm (h a), hassoc, ← hassoc]

theorem foldr_op_exchange (hassoc : ∀ a b c, op (op a b) c = op a (op b c))
    (hcomm : ∀ a b, op a b = op b a) (hid : ∀ a, op e a = a)
    (ts : List α) {γ : Type} (cs : List γ) (f : α → γ → β) :
    (ts.flatMap (fun t => cs.map (f t))).foldr op e =
      (cs.map (fun c => (ts.map (fun t => f t c)).foldr op e)).foldr op e := by
  induction ts with
  | nil => exact (foldr_op_const_e op e hid cs).symm
  | cons t ts ih =>
    rw [List.flatMap_cons, foldr_op_append op e hassoc hid, ih]
    have : (cs.map (fun c => ((t :: ts).map (fun s => f s c)).foldr op e)) =
        cs.map (fun c => op (f t c) ((ts.map (fun s => f s c)).foldr op e)) := by
      simp
    rw [this, foldr_op_map_op op e hassoc hcomm hid]

theorem foldr_op_filter (hid : ∀ a, op e a = a) (l : List α)
    (P : α → Prop) [DecidablePred P] (g : α → β) :
    (l.map (fun x => if P x then g x else e)).foldr op e =
      ((l.filter (fun x => decide (P x))).map g).foldr op e := by
  induction l with
  | nil => rfl
  | cons a l ih =>
    by_cases h : P a
    · simp [List.filter_cons, h, ih]
    · simp [List.filter_cons, h, ih, hid]

end FoldOp

theorem oMin_id (a : Option ℚ) : oMin none a = a := rfl

theorem oMin_comm (a b : Option ℚ) : oMin a b = oMin b a := by
  cases a <;> cases b <;> simp [oMin, min_comm]

theorem oMin_assoc (a b c : Option ℚ) : oMin (oMin a b) c = oMin a (oMin b c) := by
  cases a <;> cases b <;> cases c <;> simp [oMin, min_assoc]

theorem oMax_id (a : Option ℚ) : oMax none a = a := rfl

theorem oMax_comm (a b : Option ℚ) : oMax a b = oMax b a := by
  cases a <;> cases b <;> simp [oMax, max_comm]

theorem oMax_assoc (a b c : Option ℚ) : oMax (oMax a b) c = oMax a (oMax b c) := by
  cases a <;> cases b <;> cases c <;> simp [oMax, max_assoc]

theorem maskedStream_eq_flatMap (rows cols : ℕ) (mask : ℕ → ℕ → ℕ) (pid : ℕ) :
    ∀ (t : ℕ) (times : List (Stamp × Slice)),
      maskedStream rows cols mask pid t times =
        times.flatMap (fun e => sliceStream rows cols mask pid e.2) := by
  intro t times
  induction times generalizing t with
  | nil => rfl
  | cons e rest ih =>
    rw [maskedStream, List.flatMap_cons, ih (t + 1)]
    rfl

theorem nanMin_valid (l : List (Option ℚ)) :
    nanMin l = minQ (l.filterMap (fun v => v)) := by
  induction l with
  | nil => rfl
  | cons a l ih =>
    cases a with
    | none => simpa [nanMin, List.filterMap_cons, oMin_id] using ih
    | some x =>
      simp only [nanMin, List.foldr_cons, List.filterMap_cons] at ih ⊢
      rw [ih, minQ]
      cases minQ (List.filterMap (fun v => v) l) <;> rfl

theorem nanMax_valid (l : List (Option ℚ)) :
    nanMax l = maxQ (l.filterMap (fun v => v)) := by
  induction l with
  | nil => rfl
  | cons a l ih =>
    cases a with
    | none => simpa [nanMax, List.filterMap_cons, oMax_id] using ih
    | some x =>
      simp only [nanMax, List.foldr_cons, List.filterMap_cons] at ih ⊢
      rw [ih, maxQ]
      cases maxQ (List.filterMap (fun v => v) l) <;> rfl

theorem nanSum_valid (l : List (Option ℚ)) :
    nanSum l = sumQ (l.filterMap (fun v => v)) := by
  induction l with
  | nil => rfl
  | cons a l ih =>
    cases a with
    | none => simpa [nanSum, List.filterMap_cons] using ih
    | some x =>
      simp only [nanSum, List.foldr_cons, List.filterMap_cons] at ih ⊢
      rw [ih, sumQ]
      rfl

theorem nanCount_valid (l : List (Option ℚ)) :
    nanCount l = (l.filterMap (fun v => v)).length := by
  induction l with
  | nil => rfl
  | cons a l ih =>
    cases a with
    | none => simpa [nanCount, List.countP_cons, List.filterMap_cons] using ih
    | some x => simp [nanCount, List.countP_cons, List.filterMap_cons, ih, nanCount] at ih ⊢; omega

theorem nanMean_valid (l : List (Option ℚ)) :
    nanMean l = meanQ (l.filterMap (fun v => v)) := by
  rw [nanMean, meanQ, nanSum_valid, nanCount_valid]
  by_cases h : (l.filterMap (fun v => v)) = []
  · simp [h]
  · simp [h, List.length_eq_zero]

/-- C3 (counterexample): on a one-sample latitude axis the code fails with
the unnamed indexing error, not with `InsufficientResolutionError` as the
claim states. -/
theorem deriveTransform_short_axis_cex :
    deriveTransform [(0 : ℚ)] [0, 1] ≠ Except.error DError.insufficientResolution ∧
      deriveTransform [(0 : ℚ)] [0, 1] = Except.error DError.indexError := by
  refine ⟨fun h => ?_, rfl⟩
  rw [show deriveTransform [(0 : ℚ)] [0, 1] = Except.error DError.indexError from rfl] at h
  simp at h

/-- C3 (amended): if either coordinate axis has fewer than 2 samples,
transform derivation fails — but with the unnamed index-out-of-range
error (Python's IndexError from `axis[1]`), not with a named
`InsufficientResolutionError`; it never proceeds to produce a transform. -/
theorem deriveTransform_short_axis_indexError (lats lons : List ℚ)
    (h : lats.length < 2 ∨ lons.length < 2) :
    deriveTransform lats lons = Except.error DError.indexError := by
  rcases lats with _ | ⟨y0, _ | ⟨y1, lr⟩⟩ <;>
    rcases lons with _ | ⟨x0, _ | ⟨x1, lc⟩⟩ <;>
    first
    | rfl
    | (exfalso; simp [List.length] at h; omega)

theorem deriveTransform_short_axis_indexError_witness :
    (([(0 : ℚ)].length < 2 ∨ [(0 : ℚ), 1].length < 2) ∧
      deriveTransform [(0 : ℚ)] [0, 1] = Except.error DError.indexError) :=
  ⟨Or.inl (by decide),
    deriveTransform_short_axis_indexError [(0 : ℚ)] [0, 1] (Or.inl (by decide))⟩

/-- C4: for axes with at least two samples each, the derived transform is
`(pixel-width = lon₁ − lon₀, 0, origin-x = lon₀, 0, pixel-height = lat₁ − lat₀,
origin-y = lat₀)`; the pixel height is negative exactly when the latitude
samples decrease with the row index; and the remaining axis samples (the
tails `lr`, `lc`) do not appear in the result. -/
theorem deriveTransform_first_two_samples (y0 y1 x0 x1 : ℚ) (lr lc : List ℚ) :
    deriveTransform (y0 :: y1 :: lr) (x0 :: x1 :: lc) =
      Except.ok ⟨x1 - x0, 0, x0, 0, y1 - y0, y0⟩ ∧
      ((y1 - y0 < 0) ↔ y1 < y0) := by
  constructor
  · show Except.ok ((Affine.translation x0 y0).mul (Affine.scale (x1 - x0) (y1 - y0))) = _
    simp [Affine.mul, Affine.translation, Affine.scale]
  · exact sub_neg

theorem enumFrom_get_eq {α : Type} (l : List α) (n i : ℕ) :
    (List.enumFrom n l).get? i = (l.get? i).map (fun a => (n + i, a)) := by
  induction l generalizing n i with
  | nil => simp
  | cons a l ih =>
    cases i with
    | zero => simp
    | succ i =>
      rw [List.enumFrom_cons, List.get?_cons_succ, List.get?_cons_succ, ih]
      have h : n + 1 + i = n + (i + 1) := by omega
      rw [h]

theorem shapesOf_length (polys : List Polygon) :
    (shapesOf polys).length = polys.length := by
  rw [shapesOf, List.length_map, List.enum_length]

theorem shapesOf_get_eq (polys : List Polygon) (i : ℕ) :
    (shapesOf polys).get? i = (polys.get? i).map (fun p => (p, i + 1)) := by
  rw [shapesOf, List.get?_map, List.enum, enumFrom_get_eq]
  cases polys.get? i <;> simp

theorem burn_stable (tr : Affine) (r c : ℕ) (shapes : List (Polygon × ℕ))
    (acc : ℕ) (h : ∀ s ∈ shapes, s.1.covers tr r c = false) :
    shapes.foldl (burnStep tr r c) acc = acc := by
  induction shapes generalizing acc with
  | nil => rfl
  | cons s rest ih =>
    rw [List.foldl_cons, burnStep, h s (List.mem_cons_self s rest)]
    exact ih acc (fun x hx => h x (List.mem_cons_of_mem s hx))

theorem burn_last (tr : Affine) (r c : ℕ) (shapes : List (Polygon × ℕ)) :
    ∀ (j : ℕ) (acc : ℕ) (s0 : Polygon × ℕ), shapes.get? j = some s0 →
      s0.1.covers tr r c = true →
      (∀ (k : ℕ) (sk : Polygon × ℕ), j < k → shapes.get? k = some sk →
        sk.1.covers tr r c = false) →
      shapes.foldl (burnStep tr r c) acc = s0.2 := by
  induction shapes with
  | nil => intro j acc s0 h; simp at h
  | cons s rest ih =>
    intro j acc s0 hget hcov hlater
    cases j with
    | zero =>
      simp only [List.get?_cons_zero, Option.some.injEq] at hget
      subst hget
      rw [List.foldl_cons, burnStep, hcov, if_pos rfl]
      apply burn_stable
      intro x hx
      obtain ⟨k, hk⟩ := List.mem_iff_get?.mp hx
      exact hlater (k + 1) x (Nat.succ_pos k) hk
    | succ j =>
      rw [List.foldl_cons]
      exact ih j _ s0 hget hcov
        (fun k sk hjk hk => hlater (k + 1) sk (Nat.succ_lt_succ hjk) hk)

/-- C5: rasterization burn ids are dense starting at 1 — shape `i` of the
input sequence is burned with id `i + 1` — and when several polygons cover
the same in-bounds cell, the zone raster holds the id of the last covering
polygon in input order (last-write-wins): if polygon `j` covers cell
`(r, c)` and no later polygon does, the cell gets id `j + 1`. -/
theorem rasterize_burn_last_write_wins (polys : List Polygon) (tr : Affine)
    (rows cols r c j : ℕ) (pj : Polygon) (hget : polys.get? j = some pj)
    (hcov : pj.covers tr r c = true)
    (hlater : ∀ (k : ℕ) (pk : Polygon), j < k → polys.get? k = some pk →
      pk.covers tr r c = false)
    (hr : r < rows) (hc : c < cols) :
    rasterize (shapesOf polys) tr rows cols r c = j + 1 ∧
      ∀ i : ℕ, (shapesOf polys).get? i = (polys.get? i).map (fun p => (p, i + 1)) := by
  refine ⟨?_, shapesOf_get_eq polys⟩
  rw [rasterize, if_pos ⟨hr, hc⟩]
  exact burn_last tr r c (shapesOf polys) j 0 (pj, j + 1)
    (by rw [shapesOf_get_eq, hget]; rfl) hcov
    (fun k sk hjk hk => by
      rw [shapesOf_get_eq] at hk
      obtain ⟨pk, hpk, rfl⟩ := Option.map_eq_some'.mp hk
      exact hlater k pk hjk hpk)

theorem rasterize_burn_last_write_wins_witness :
    rasterize (shapesOf [⟨"A", fun _ r c => decide (r = 0 ∧ c = 0)⟩,
        ⟨"B", fun _ r c => decide (r = 0 ∧ c = 0)⟩])
      (Affine.translation 0 0) 1 1 0 0 = 1 + 1 ∧
      ∀ i : ℕ, (shapesOf [⟨"A", fun _ r c => decide (r = 0 ∧ c = 0)⟩,
        ⟨"B", fun _ r c => decide (r = 0 ∧ c = 0)⟩]).get? i =
        (([⟨"A", fun _ r c => decide (r = 0 ∧ c = 0)⟩,
          ⟨"B", fun _ r c => decide (r = 0 ∧ c = 0)⟩] : List Polygon).get? i).map
          (fun p => (p, i + 1)) :=
  rasterize_burn_last_write_wins _ (Affine.translation 0 0) 1 1 0 0 1
    ⟨"B", fun _ r c => decide (r = 0 ∧ c = 0)⟩ rfl rfl
    (fun k pk hjk hk => by
      rw [List.get?_eq_none.mpr (by simpa using hjk)] at hk
      simp at hk) (by decide) (by decide)

theorem zonal_aggregation_ok (grid : Grid) (polys : List Polygon)
    (ts : List (Stamp × Slice)) (tr : Affine)
    (htr : deriveTransform grid.lats grid.lons = Except.ok tr) :
    zonal_aggregation ⟨grid, ts⟩ polys =
      Except.ok (reduceWithMask grid.lats.length grid.lons.length
        (rasterize (shapesOf polys) tr grid.lats.length grid.lons.length)
        polys.length ts) := by
  simp only [zonal_aggregation, htr]
  rfl

theorem mapM_except_ok {E X Y : Type} (f : X → Except E Y) (g : X → Y)
    (l : List X) (h : ∀ x ∈ l, f x = Except.ok (g x)) :
    l.mapM f = Except.ok (l.map g) := by
  induction l with
  | nil => rfl
  | cons x l ih =>
    rw [List.mapM_cons, h x (List.mem_cons_self x l),
      ih (fun y hy => h y (List.mem_cons_of_mem x hy))]
    rfl

theorem daily_aggregation_ok (cube : Cube) (polys : List Polygon) (tr : Affine)
    (htr : deriveTransform cube.grid.lats cube.grid.lons = Except.ok tr) :
    daily_aggregation cube polys =
      Except.ok ((groupByDate cube.times).flatMap (fun g =>
        rowsFor g.1 polys (reduceWithMask cube.grid.lats.length cube.grid.lons.length
          (rasterize (shapesOf polys) tr cube.grid.lats.length cube.grid.lons.length)
          polys.length g.2))) := by
  rw [daily_aggregation,
    mapM_except_ok _ (fun g => rowsFor g.1 polys
      (reduceWithMask cube.grid.lats.length cube.grid.lons.length
        (rasterize (shapesOf polys) tr cube.grid.lats.length cube.grid.lons.length)
        polys.length g.2)) _
      (fun g _ => by
        rw [zonal_aggregation_ok cube.grid polys g.2 tr htr]
        rfl)]
  show Except.ok _ = _
  rw [List.flatMap_def]

/-- C9: rasterization is deterministic — the same grid shape, transform
and polygon order always produce the identical zone raster — and
`daily_aggregation`, which re-rasterizes inside `zonal_aggregation` on
every day bucket, is extensionally equal to the variant that derives the
transform and the zone raster once and reuses them for every day. -/
theorem rasterize_deterministic_shared_mask (cube : Cube) (polys : List Polygon)
    (tr : Affine)
    (htr : deriveTransform cube.grid.lats cube.grid.lons = Except.ok tr) :
    (∀ (shapes : List (Polygon × ℕ)) (t : Affine) (rows cols r c : ℕ),
      rasterize shapes t rows cols r c = rasterize shapes t rows cols r c) ∧
    daily_aggregation cube polys = daily_aggregation_shared cube polys := by
  refine ⟨fun _ _ _ _ _ _ => rfl, ?_⟩
  rw [daily_aggregation_ok cube polys tr htr, daily_aggregation_shared, htr]

theorem rasterize_deterministic_shared_mask_witness :
    (∀ (shapes : List (Polygon × ℕ)) (t : Affine) (rows cols r c : ℕ),
      rasterize shapes t rows cols r c = rasterize shapes t rows cols r c) ∧
    daily_aggregation ⟨⟨[0, 1], [0, 1]⟩, [(⟨0, 0⟩, fun _ _ => some 3)]⟩
        [⟨"A", fun _ r c => decide (r = 0 ∧ c = 0)⟩] =
      daily_aggregation_shared ⟨⟨[0, 1], [0, 1]⟩, [(⟨0, 0⟩, fun _ _ => some 3)]⟩
        [⟨"A", fun _ r c => decide (r = 0 ∧ c = 0)⟩] :=
  rasterize_deterministic_shared_mask _ _
    ((Affine.translation 0 0).mul (Affine.scale (1 - 0) (1 - 0))) rfl

/-- C10: zone membership is time-invariant — the 2-D zone raster is
broadcast unchanged along the time axis before masking, so a grid cell
(r, c) carries the same zone id at any two time indices, and hence belongs
to a given zone at one timestamp exactly when it does at any other. -/
theorem zone_membership_time_invariant (mask : ℕ → ℕ → ℕ) (t1 t2 r c : ℕ) :
    zoneOfCell mask t1 r c = zoneOfCell mask t2 r c ∧
      broadcastMask mask t1 r c = mask r c ∧
      ∀ pid : ℕ, (zoneOfCell mask t1 r c = pid ↔ zoneOfCell mask t2 r c = pid) :=
  ⟨rfl, rfl, fun _ => Iff.rfl⟩

theorem range_get_eq (s n i : ℕ) (h : i < n) :
    (List.range' s n).get? i = some (s + i) := by
  induction n generalizing s i with
  | zero => omega
  | succ n ih =>
    rw [List.range'_succ]
    cases i with
    | zero => rfl
    | succ i =>
      rw [List.get?_cons_succ, ih (s + 1) i (by omega)]
      have hs : s + 1 + i = s + (i + 1) := by omega
      rw [hs]

theorem nan_stats_empty (l : List (Option ℚ)) (h : nanCount l = 0) :
    nanMean l = none ∧ nanMin l = none ∧ nanMax l = none ∧ nanSum l = 0 := by
  have hv : l.filterMap (fun v => v) = [] :=
    List.length_eq_zero.mp (by rw [← nanCount_valid]; exact h)
  refine ⟨?_, ?_, ?_, ?_⟩
  · rw [nanMean, if_pos h]
  · rw [nanMin_valid, hv]; rfl
  · rw [nanMax_valid, hv]; rfl
  · rw [nanSum_valid, hv]; rfl

/-- C1 (counterexample): a zone with zero coverage (its polygon rasterizes
to no cells) yields mean = NaN as claimed, but its reported sum is 0, not
the NaN sentinel — refuting "reports mean, min, max AND sum all as the
'no data' sentinel" and "never coerces any of these statistics to 0". -/
theorem zonal_zero_coverage_sum_zero_cex :
    (zonal_aggregation ⟨⟨[0, 1], [0, 1]⟩, [(⟨0, 0⟩, fun _ _ => some 5)]⟩
        [⟨"P", fun _ _ _ => false⟩]).map ZonalResult.totals =
      Except.ok [some 0] ∧
    (zonal_aggregation ⟨⟨[0, 1], [0, 1]⟩, [(⟨0, 0⟩, fun _ _ => some 5)]⟩
        [⟨"P", fun _ _ _ => false⟩]).map ZonalResult.means =
      Except.ok [none] ∧
    [some (0 : ℚ)] ≠ ([none] : List (Option ℚ)) := by
  have hok := zonal_aggregation_ok ⟨[0, 1], [0, 1]⟩
    [⟨"P", fun _ _ _ => false⟩] [(⟨0, 0⟩, fun _ _ => some 5)]
    ((Affine.translation 0 0).mul (Affine.scale (1 - 0) (1 - 0))) rfl
  have hempty : nanCount (maskedStream 2 2
      (rasterize (shapesOf [⟨"P", fun _ _ _ => false⟩])
        ((Affine.translation 0 0).mul (Affine.scale (1 - 0) (1 - 0))) 2 2) 1 0
      [(⟨0, 0⟩, fun _ _ => some 5)]) = 0 := by decide
  obtain ⟨hmean, hmin, hmax, hsum⟩ := nan_stats_empty _ hempty
  refine ⟨?_, ?_, by decide⟩
  · rw [hok]
    show Except.ok [some (nanSum (maskedStream 2 2
      (rasterize (shapesOf [⟨"P", fun _ _ _ => false⟩])
        ((Affine.translation 0 0).mul (Affine.scale (1 - 0) (1 - 0))) 2 2) 1 0
      [(⟨0, 0⟩, fun _ _ => some 5)]))] = _
    rw [hsum]
  · rw [hok]
    show Except.ok [nanMean (maskedStream 2 2
      (rasterize (shapesOf [⟨"P", fun _ _ _ => false⟩])
        ((Affine.translation 0 0).mul (Affine.scale (1 - 0) (1 - 0))) 2 2) 1 0
      [(⟨0, 0⟩, fun _ _ => some 5)])] = _
    rw [hmean]

/-- C1 (amended): for a zone whose masked cell set is empty (zero coverage
or all cells equal to the sentinel), `zonal_aggregation` does not raise:
it reports mean, min and max as the NaN sentinel, but reports the sum as
0 (the skip-NaN sum of an empty set); the valid-cell count (0 here) is not
part of the returned statistics at all. -/
theorem zonal_empty_zone_stats (cube : Cube) (polys : List Polygon)
    (tr : Affine) (res : ZonalResult) (i : ℕ)
    (htr : deriveTransform cube.grid.lats cube.grid.lons = Except.ok tr)
    (hres : zonal_aggregation cube polys = Except.ok res)
    (hi : i < polys.length)
    (hempty : nanCount (maskedStream cube.grid.lats.length cube.grid.lons.length
      (rasterize (shapesOf polys) tr cube.grid.lats.length cube.grid.lons.length)
      (1 + i) 0 cube.times) = 0) :
    res.means.get? i = some none ∧ res.maxs.get? i = some none ∧
      res.mins.get? i = some none ∧ res.totals.get? i = some (some 0) := by
  have hok := zonal_aggregation_ok cube.grid polys cube.times tr htr
  rw [show (⟨cube.grid, cube.times⟩ : Cube) = cube from rfl, hres] at hok
  injection hok with hres2
  obtain ⟨hmean, hmin, hmax, hsum⟩ := nan_stats_empty _ hempty
  subst hres2
  rw [reduceWithMask]
  refine ⟨?_, ?_, ?_, ?_⟩ <;>
    simp only [List.get?_map, range_get_eq 1 polys.length i hi, Option.map_some'] <;>
    first
    | rw [hmean]
    | rw [hmax]
    | rw [hmin]
    | rw [hsum]

theorem zonal_empty_zone_stats_witness :
    (reduceWithMask 2 2 (rasterize (shapesOf [⟨"P", fun _ _ _ => false⟩])
        ((Affine.translation 0 0).mul (Affine.scale (1 - 0) (1 - 0))) 2 2) 1
        [(⟨0, 0⟩, fun _ _ => some 5)]).means.get? 0 = some none ∧
    (reduceWithMask 2 2 (rasterize (shapesOf [⟨"P", fun _ _ _ => false⟩])
        ((Affine.translation 0 0).mul (Affine.scale (1 - 0) (1 - 0))) 2 2) 1
        [(⟨0, 0⟩, fun _ _ => some 5)]).maxs.get? 0 = some none ∧
    (reduceWithMask 2 2 (rasterize (shapesOf [⟨"P", fun _ _ _ => false⟩])
        ((Affine.translation 0 0).mul (Affine.scale (1 - 0) (1 - 0))) 2 2) 1
        [(⟨0, 0⟩, fun _ _ => some 5)]).mins.get? 0 = some none ∧
    (reduceWithMask 2 2 (rasterize (shapesOf [⟨"P", fun _ _ _ => false⟩])
        ((Affine.translation 0 0).mul (Affine.scale (1 - 0) (1 - 0))) 2 2) 1
        [(⟨0, 0⟩, fun _ _ => some 5)]).totals.get? 0 = some (some 0) :=
  zonal_empty_zone_stats ⟨⟨[0, 1], [0, 1]⟩, [(⟨0, 0⟩, fun _ _ => some 5)]⟩
    [⟨"P", fun _ _ _ => false⟩]
    ((Affine.translation 0 0).mul (Affine.scale (1 - 0) (1 - 0))) _ 0 rfl
    (zonal_aggregation_ok ⟨[0, 1], [0, 1]⟩ [⟨"P", fun _ _ _ => false⟩]
      [(⟨0, 0⟩, fun _ _ => some 5)]
      ((Affine.translation 0 0).mul (Affine.scale (1 - 0) (1 - 0))) rfl)
    (by decide) (by decide)

theorem filterMap_ext {α β : Type} (l : List α) (f g : α → Option β)
    (h : ∀ a ∈ l, f a = g a) : l.filterMap f = l.filterMap g := by
  induction l with
  | nil => rfl
  | cons a l ih =>
    rw [List.filterMap_cons, List.filterMap_cons, h a (List.mem_cons_self a l),
      ih (fun x hx => h x (List.mem_cons_of_mem a hx))]

theorem filterMap_flatMap {α β γ : Type} (l : List α) (f : α → List β)
    (g : β → Option γ) :
    (l.flatMap f).filterMap g = l.flatMap (fun x => (f x).filterMap g) := by
  induction l with
  | nil => rfl
  | cons a l ih => rw [List.flatMap_cons, List.flatMap_cons, List.filterMap_append, ih]

theorem maskedStream_filterMap (rows cols : ℕ) (mask : ℕ → ℕ → ℕ) (z : ℕ)
    (times : List (Stamp × Slice)) :
    (maskedStream rows cols mask z 0 times).filterMap (fun v => v) =
      specMaskedCells rows cols mask z times := by
  rw [maskedStream_eq_flatMap, filterMap_flatMap, specMaskedCells]
  congr 1
  funext e
  rw [sliceStream, List.filterMap_map]
  apply filterMap_ext
  intro p _
  cases hv : e.2 p.1 p.2 <;> by_cases hm : mask p.1 p.2 = z <;> simp [hm, hv]

theorem maskedStream_agree (rows cols : ℕ) (mask : ℕ → ℕ → ℕ) (z : ℕ)
    (times1 times2 : List (Stamp × Slice))
    (hagree : List.Forall₂ (fun e1 e2 : Stamp × Slice => ∀ r c : ℕ,
      mask r c = z → e1.2 r c = e2.2 r c) times1 times2) :
    maskedStream rows cols mask z 0 times1 =
      maskedStream rows cols mask z 0 times2 := by
  rw [maskedStream_eq_flatMap, maskedStream_eq_flatMap]
  induction hagree with
  | nil => rfl
  | cons he _ ih =>
    rw [List.flatMap_cons, List.flatMap_cons, ih]
    congr 1
    rw [sliceStream, sliceStream]
    apply List.map_congr_left
    intro p _
    by_cases hm : mask p.1 p.2 = z
    · rw [if_pos hm, if_pos hm, he p.1 p.2 hm]
    · rw [if_neg hm, if_neg hm]

/-- C7: the statistics `zonal_aggregation` reports for zone `z = i + 1` are
exactly the reductions of the spec's masked cell set
`{value[r,c] : zoneRaster[r,c] = z and value[r,c] is not the sentinel}` —
sentinel cells are excluded (never treated as zero), and the values held by
cells of any other zone id (zone 0 included) never contribute: the masked
stream is unchanged whenever two cubes agree on the cells of zone `z`,
whatever their values elsewhere. -/
theorem masked_set_semantics (cube : Cube) (polys : List Polygon)
    (tr : Affine) (res : ZonalResult) (i : ℕ)
    (htr : deriveTransform cube.grid.lats cube.grid.lons = Except.ok tr)
    (hres : zonal_aggregation cube polys = Except.ok res)
    (hi : i < polys.length) :
    (res.means.get? i = some (meanQ (specMaskedCells cube.grid.lats.length
        cube.grid.lons.length (rasterize (shapesOf polys) tr
          cube.grid.lats.length cube.grid.lons.length) (1 + i) cube.times)) ∧
      res.maxs.get? i = some (maxQ (specMaskedCells cube.grid.lats.length
        cube.grid.lons.length (rasterize (shapesOf polys) tr
          cube.grid.lats.length cube.grid.lons.length) (1 + i) cube.times)) ∧
      res.mins.get? i = some (minQ (specMaskedCells cube.grid.lats.length
        cube.grid.lons.length (rasterize (shapesOf polys) tr
          cube.grid.lats.length cube.grid.lons.length) (1 + i) cube.times)) ∧
      res.totals.get? i = some (some (sumQ (specMaskedCells cube.grid.lats.length
        cube.grid.lons.length (rasterize (shapesOf polys) tr
          cube.grid.lats.length cube.grid.lons.length) (1 + i) cube.times)))) ∧
    ∀ times2 : List (Stamp × Slice),
      List.Forall₂ (fun e1 e2 : Stamp × Slice => ∀ r c : ℕ,
        rasterize (shapesOf polys) tr cube.grid.lats.length
          cube.grid.lons.length r c = 1 + i → e1.2 r c = e2.2 r c)
        cube.times times2 →
      maskedStream cube.grid.lats.length cube.grid.lons.length
          (rasterize (shapesOf polys) tr cube.grid.lats.length
            cube.grid.lons.length) (1 + i) 0 cube.times =
        maskedStream cube.grid.lats.length cube.grid.lons.length
          (rasterize (shapesOf polys) tr cube.grid.lats.length
            cube.grid.lons.length) (1 + i) 0 times2 := by
  constructor
  · have hok := zonal_aggregation_ok cube.grid polys cube.times tr htr
    rw [show (⟨cube.grid, cube.times⟩ : Cube) = cube from rfl, hres] at hok
    injection hok with hres2
    subst hres2
    rw [reduceWithMask]
    refine ⟨?_, ?_, ?_, ?_⟩ <;>
      simp only [List.get?_map, range_get_eq 1 polys.length i hi,
        Option.map_some'] <;>
      rw [← maskedStream_filterMap]
    · rw [nanMean_valid]
    · rw [nanMax_valid]
    · rw [nanMin_valid]
    · rw [nanSum_valid]
  · intro times2 hagree
    exact maskedStream_agree _ _ _ _ _ times2 hagree

theorem masked_set_semantics_witness :
    ((reduceWithMask 2 2 (rasterize (shapesOf
          [⟨"P", fun _ r c => decide (r = 0 ∧ c = 0)⟩])
          ((Affine.translation 0 0).mul (Affine.scale (1 - 0) (1 - 0))) 2 2) 1
          [(⟨0, 0⟩, fun r c => if r = 0 ∧ c = 0 then some 5 else none)]).means.get? 0 =
        some (meanQ (specMaskedCells 2 2 (rasterize (shapesOf
          [⟨"P", fun _ r c => decide (r = 0 ∧ c = 0)⟩])
          ((Affine.translation 0 0).mul (Affine.scale (1 - 0) (1 - 0))) 2 2) 1
          [(⟨0, 0⟩, fun r c => if r = 0 ∧ c = 0 then some 5 else none)])) ∧
      (reduceWithMask 2 2 (rasterize (shapesOf
          [⟨"P", fun _ r c => decide (r = 0 ∧ c = 0)⟩])
          ((Affine.translation 0 0).mul (Affine.scale (1 - 0) (1 - 0))) 2 2) 1
          [(⟨0, 0⟩, fun r c => if r = 0 ∧ c = 0 then some 5 else none)]).maxs.get? 0 =
        some (maxQ (specMaskedCells 2 2 (rasterize (shapesOf
          [⟨"P", fun _ r c => decide (r = 0 ∧ c = 0)⟩])
          ((Affine.translation 0 0).mul (Affine.scale (1 - 0) (1 - 0))) 2 2) 1
          [(⟨0, 0⟩, fun r c => if r = 0 ∧ c = 0 then some 5 else none)])) ∧
      (reduceWithMask 2 2 (rasterize (shapesOf
          [⟨"P", fun _ r c => decide (r = 0 ∧ c = 0)⟩])
          ((Affine.translation 0 0).mul (Affine.scale (1 - 0) (1 - 0))) 2 2) 1
          [(⟨0, 0⟩, fun r c => if r = 0 ∧ c = 0 then some 5 else none)]).mins.get? 0 =
        some (minQ (specMaskedCells 2 2 (rasterize (shapesOf
          [⟨"P", fun _ r c => decide (r = 0 ∧ c = 0)⟩])
          ((Affine.translation 0 0).mul (Affine.scale (1 - 0) (1 - 0))) 2 2) 1
          [(⟨0, 0⟩, fun r c => if r = 0 ∧ c = 0 then some 5 else none)])) ∧
      (reduceWithMask 2 2 (rasterize (shapesOf
          [⟨"P", fun _ r c => decide (r = 0 ∧ c = 0)⟩])
          ((Affine.translation 0 0).mul (Affine.scale (1 - 0) (1 - 0))) 2 2) 1
          [(⟨0, 0⟩, fun r c => if r = 0 ∧ c = 0 then some 5 else none)]).totals.get? 0 =
        some (some (sumQ (specMaskedCells 2 2 (rasterize (shapesOf
          [⟨"P", fun _ r c => decide (r = 0 ∧ c = 0)⟩])
          ((Affine.translation 0 0).mul (Affine.scale (1 - 0) (1 - 0))) 2 2) 1
          [(⟨0, 0⟩, fun r c => if r = 0 ∧ c = 0 then some 5 else none)])))) ∧
    ∀ times2 : List (Stamp × Slice),
      List.Forall₂ (fun e1 e2 : Stamp × Slice => ∀ r c : ℕ,
        rasterize (shapesOf [⟨"P", fun _ r c => decide (r = 0 ∧ c = 0)⟩])
          ((Affine.translation 0 0).mul (Affine.scale (1 - 0) (1 - 0))) 2 2 r c = 1 + 0 →
          e1.2 r c = e2.2 r c)
        [(⟨0, 0⟩, fun r c => if r = 0 ∧ c = 0 then some 5 else none)] times2 →
      maskedStream 2 2 (rasterize (shapesOf
          [⟨"P", fun _ r c => decide (r = 0 ∧ c = 0)⟩])
          ((Affine.translation 0 0).mul (Affine.scale (1 - 0) (1 - 0))) 2 2) (1 + 0) 0
          [(⟨0, 0⟩, fun r c => if r = 0 ∧ c = 0 then some 5 else none)] =
        maskedStream 2 2 (rasterize (shapesOf
          [⟨"P", fun _ r c => decide (r = 0 ∧ c = 0)⟩])
          ((Affine.translation 0 0).mul (Affine.scale (1 - 0) (1 - 0))) 2 2) (1 + 0) 0
          times2 :=
  masked_set_semantics
    ⟨⟨[0, 1], [0, 1]⟩, [(⟨0, 0⟩, fun r c => if r = 0 ∧ c = 0 then some 5 else none)]⟩
    [⟨"P", fun _ r c => decide (r = 0 ∧ c = 0)⟩]
    ((Affine.translation 0 0).mul (Affine.scale (1 - 0) (1 - 0))) _ 0 rfl
    (zonal_aggregation_ok ⟨[0, 1], [0, 1]⟩
      [⟨"P", fun _ r c => decide (r = 0 ∧ c = 0)⟩]
      [(⟨0, 0⟩, fun r c => if r = 0 ∧ c = 0 then some 5 else none)]
      ((Affine.translation 0 0).mul (Affine.scale (1 - 0) (1 - 0))) rfl)
    (by decide)

theorem countP_congr_mem {α : Type} (l : List α) (p q : α → Bool)
    (h : ∀ a ∈ l, p a = q a) : l.countP p = l.countP q := by
  induction l with
  | nil => rfl
  | cons a l ih =>
    rw [List.countP_cons, List.countP_cons, h a (List.mem_cons_self a l),
      ih (fun x hx => h x (List.mem_cons_of_mem a hx))]

theorem sum_map_add {α : Type} (l : List α) (f g : α → ℕ) :
    (l.map (fun z => f z + g z)).sum = (l.map f).sum + (l.map g).sum := by
  induction l with
  | nil => rfl
  | cons a l ih => simp only [List.map_cons, List.sum_cons, ih]; omega

theorem sum_map_le {α : Type} (l : List α) (f g : α → ℕ)
    (h : ∀ a ∈ l, f a ≤ g a) : (l.map f).sum ≤ (l.map g).sum := by
  induction l with
  | nil => exact le_refl 0
  | cons a l ih =>
    simp only [List.map_cons, List.sum_cons]
    exact Nat.add_le_add (h a (List.mem_cons_self a l))
      (ih (fun x hx => h x (List.mem_cons_of_mem a hx)))

theorem sum_map_const {α : Type} (l : List α) (k : ℕ) :
    (l.map (fun _ => k)).sum = l.length * k := by
  induction l with
  | nil => simp
  | cons a l ih => simp only [List.map_cons, List.sum_cons, ih, List.length_cons]; ring

theorem sum_indicator_not_mem (x : ℕ) (ids : List ℕ) (h : x ∉ ids) :
    (ids.map (fun z => if x = z then 1 else 0)).sum = 0 := by
  induction ids with
  | nil => rfl
  | cons i ids ih =>
    simp only [List.map_cons, List.sum_cons]
    rw [if_neg (fun hx => h (by rw [hx]; exact List.mem_cons_self i ids)),
      ih (fun hx => h (List.mem_cons_of_mem i hx))]

theorem sum_indicator (x : ℕ) (ids : List ℕ) (h : ids.Nodup) :
    (ids.map (fun z => if x = z then 1 else 0)).sum = if x ∈ ids then 1 else 0 := by
  induction ids with
  | nil => rfl
  | cons i ids ih =>
    simp only [List.map_cons, List.sum_cons]
    by_cases hx : x = i
    · subst hx
      rw [if_pos rfl, if_pos (List.mem_cons_self x ids),
        sum_indicator_not_mem x ids (List.Nodup.not_mem h)]
    · rw [if_neg hx, ih (List.Nodup.of_cons h), Nat.zero_add]
      by_cases hmem : x ∈ ids
      · rw [if_pos hmem, if_pos (List.mem_cons_of_mem i hmem)]
      · rw [if_neg hmem, if_neg (fun hc => by
          rcases List.mem_cons.mp hc with hc | hc
          · exact hx hc
          · exact hmem hc)]

theorem countP_zone_sum_le {α : Type} (l : List α) (g : α → ℕ) (ids : List ℕ)
    (h : ids.Nodup) :
    (ids.map (fun z => l.countP (fun a => g a = z))).sum ≤ l.length := by
  induction l with
  | nil =>
    have hz : (ids.map (fun z => List.countP (fun a => decide (g a = z)) [])).sum =
        (ids.map (fun _ => 0)).sum := by
      exact congrArg List.sum (List.map_congr_left (fun z _ => List.countP_nil _))
    rw [hz, sum_map_const]
    simp
  | cons a l ih =>
    have hs : (ids.map (fun z => List.countP (fun x => decide (g x = z)) (a :: l))).sum =
        (ids.map (fun z => List.countP (fun x => decide (g x = z)) l)).sum +
          (ids.map (fun z => if g a = z then 1 else 0)).sum := by
      rw [← sum_map_add]
      refine congrArg List.sum (List.map_congr_left (fun z _ => ?_))
      rw [List.countP_cons]
      by_cases hg : g a = z <;> simp [hg]
    rw [hs, sum_indicator (g a) ids h, List.length_cons]
    by_cases hmem : g a ∈ ids
    · rw [if_pos hmem]; omega
    · rw [if_neg hmem]; omega

theorem countP_zone_sum_eq {α : Type} (l : List α) (g : α → ℕ) (ids : List ℕ)
    (h : ids.Nodup) (hmem : ∀ a ∈ l, g a ∈ ids) :
    (ids.map (fun z => l.countP (fun a => g a = z))).sum = l.length := by
  induction l with
  | nil =>
    have hz : (ids.map (fun z => List.countP (fun a => decide (g a = z)) [])).sum =
        (ids.map (fun _ => 0)).sum := by
      exact congrArg List.sum (List.map_congr_left (fun z _ => List.countP_nil _))
    rw [hz, sum_map_const]
    simp
  | cons a l ih =>
    have hs : (ids.map (fun z => List.countP (fun x => decide (g x = z)) (a :: l))).sum =
        (ids.map (fun z => List.countP (fun x => decide (g x = z)) l)).sum +
          (ids.map (fun z => if g a = z then 1 else 0)).sum := by
      rw [← sum_map_add]
      refine congrArg List.sum (List.map_congr_left (fun z _ => ?_))
      rw [List.countP_cons]
      by_cases hg : g a = z <;> simp [hg]
    rw [hs, sum_indicator (g a) ids h,
      if_pos (hmem a (List.mem_cons_self a l)),
      ih (fun x hx => hmem x (List.mem_cons_of_mem a hx)), List.length_cons]

theorem length_cellsOf (rows cols : ℕ) :
    (cellsOf rows cols).length = rows * cols := by
  rw [cellsOf, List.length_flatMap]
  have h1 : List.map (List.length ∘ fun r => List.map (fun c => (r, c)) (List.range cols))
        (List.range rows) = (List.range rows).map (fun _ => cols) :=
    List.map_congr_left (fun r _ => by simp)
  rw [h1, sum_map_const, List.length_range]

theorem mem_cellsOf (rows cols : ℕ) (p : ℕ × ℕ) :
    p ∈ cellsOf rows cols ↔ p.1 < rows ∧ p.2 < cols := by
  rw [cellsOf]
  constructor
  · intro hp
    obtain ⟨r, hr, hmem⟩ := List.mem_flatMap.mp hp
    obtain ⟨c, hc, hpc⟩ := List.mem_map.mp hmem
    rw [← hpc]
    exact ⟨List.mem_range.mp hr, List.mem_range.mp hc⟩
  · intro ⟨h1, h2⟩
    exact List.mem_flatMap.mpr ⟨p.1, List.mem_range.mpr h1,
      List.mem_map.mpr ⟨p.2, List.mem_range.mpr h2, rfl⟩⟩

theorem nanCount_single_slice (rows cols : ℕ) (mask : ℕ → ℕ → ℕ) (z : ℕ)
    (st : Stamp) (s : Slice) :
    nanCount (maskedStream rows cols mask z 0 [(st, s)]) =
      (cellsOf rows cols).countP
        (fun p => decide (mask p.1 p.2 = z) && (s p.1 p.2).isSome) := by
  rw [maskedStream_eq_flatMap]
  have h1 : ([(st, s)] : List (Stamp × Slice)).flatMap
      (fun e => sliceStream rows cols mask z e.2) = sliceStream rows cols mask z s := by
    rw [List.flatMap_cons, List.flatMap_nil, List.append_nil]
  rw [h1, sliceStream, nanCount, List.countP_map]
  refine countP_congr_mem _ _ _ (fun p _ => ?_)
  by_cases hm : mask p.1 p.2 = z
  · simp [hm]
  · simp [hm]

theorem rasterize_unique_cover (polys : List Polygon) (tr : Affine)
    (rows cols : ℕ) (p : ℕ × ℕ) (hr : p.1 < rows) (hc : p.2 < cols)
    (j : Fin polys.length)
    (hcov : (polys.get j).covers tr p.1 p.2 = true)
    (huniq : ∀ k : Fin polys.length, (polys.get k).covers tr p.1 p.2 = true → k = j) :
    rasterize (shapesOf polys) tr rows cols p.1 p.2 = j.val + 1 := by
  rw [rasterize, if_pos ⟨hr, hc⟩]
  refine burn_last tr p.1 p.2 (shapesOf polys) j.val 0 (polys.get j, j.val + 1)
    (by rw [shapesOf_get_eq, List.get?_eq_get j.isLt]; rfl) hcov ?_
  intro k sk hjk hk
  rw [shapesOf_get_eq] at hk
  obtain ⟨pk, hpk, rfl⟩ := Option.map_eq_some'.mp hk
  have hklt : k < polys.length := by
    by_contra hge
    rw [List.get?_eq_none.mpr (by omega)] at hpk
    simp at hpk
  cases hcv : pk.covers tr p.1 p.2 with
  | false => rfl
  | true =>
    exfalso
    have hgetk : polys.get ⟨k, hklt⟩ = pk := by
      have := List.get?_eq_get hklt
      rw [hpk] at this
      exact (Option.some.injEq _ _).mp this.symm
    have := huniq ⟨k, hklt⟩ (by rw [hgetk]; exact hcv)
    have : k = j.val := congrArg Fin.val this
    omega

/-- C8 (amended): per-zone masked cell sets are pairwise disjoint, the sum
over all zones of the per-zone valid-cell counts never exceeds the grid's
total cell count rows × cols, and it equals rows × cols exactly when the
polygons tile the grid (every in-bounds cell covered by exactly one
polygon) AND the value slice contains no missing-value sentinel cells. -/
theorem zone_counts_disjoint_bound (polys : List Polygon) (tr : Affine)
    (rows cols : ℕ) (st : Stamp) (s : Slice) :
    (∀ z1 z2 : ℕ, z1 ≠ z2 → ∀ p : ℕ × ℕ,
      p ∈ zoneCells rows cols (rasterize (shapesOf polys) tr rows cols) z1 →
      p ∉ zoneCells rows cols (rasterize (shapesOf polys) tr rows cols) z2) ∧
    ((List.range' 1 polys.length).map (fun z =>
      nanCount (maskedStream rows cols (rasterize (shapesOf polys) tr rows cols)
        z 0 [(st, s)]))).sum ≤ rows * cols ∧
    ((∀ p ∈ cellsOf rows cols, ∃ j : Fin polys.length,
        (polys.get j).covers tr p.1 p.2 = true ∧
        ∀ k : Fin polys.length, (polys.get k).covers tr p.1 p.2 = true → k = j) →
      (∀ p ∈ cellsOf rows cols, (s p.1 p.2).isSome = true) →
      ((List.range' 1 polys.length).map (fun z =>
        nanCount (maskedStream rows cols (rasterize (shapesOf polys) tr rows cols)
          z 0 [(st, s)]))).sum = rows * cols) := by
  refine ⟨?_, ?_, ?_⟩
  · intro z1 z2 hne p h1 h2
    rw [zoneCells, List.mem_filter] at h1 h2
    exact hne ((of_decide_eq_true h1.2).symm.trans (of_decide_eq_true h2.2))
  · have h1 : ((List.range' 1 polys.length).map (fun z =>
        nanCount (maskedStream rows cols (rasterize (shapesOf polys) tr rows cols)
          z 0 [(st, s)]))).sum ≤
        ((List.range' 1 polys.length).map (fun z =>
          (cellsOf rows cols).countP (fun p =>
            rasterize (shapesOf polys) tr rows cols p.1 p.2 = z))).sum := by
      refine sum_map_le _ _ _ (fun z _ => ?_)
      rw [nanCount_single_slice]
      refine List.countP_mono_left (fun p _ hp => ?_)
      rw [Bool.and_eq_true] at hp
      exact hp.1
    refine le_trans h1 ?_
    rw [← length_cellsOf rows cols]
    exact countP_zone_sum_le (cellsOf rows cols)
      (fun p => rasterize (shapesOf polys) tr rows cols p.1 p.2)
      (List.range' 1 polys.length) (List.nodup_range' 1 polys.length)
  · intro htile hval
    have h1 : (List.range' 1 polys.length).map (fun z =>
        nanCount (maskedStream rows cols (rasterize (shapesOf polys) tr rows cols)
          z 0 [(st, s)])) =
        (List.range' 1 polys.length).map (fun z =>
          (cellsOf rows cols).countP (fun p =>
            rasterize (shapesOf polys) tr rows cols p.1 p.2 = z)) := by
      refine List.map_congr_left (fun z _ => ?_)
      rw [nanCount_single_slice]
      refine countP_congr_mem _ _ _ (fun p hp => ?_)
      rw [hval p hp, Bool.and_true]
    rw [h1, ← length_cellsOf rows cols]
    refine countP_zone_sum_eq (cellsOf rows cols)
      (fun p => rasterize (shapesOf polys) tr rows cols p.1 p.2)
      (List.range' 1 polys.length) (List.nodup_range' 1 polys.length) (fun p hp => ?_)
    obtain ⟨j, hcov, huniq⟩ := htile p hp
    obtain ⟨hr, hc⟩ := (mem_cellsOf rows cols p).mp hp
    show rasterize (shapesOf polys) tr rows cols p.1 p.2 ∈ List.range' 1 polys.length
    rw [rasterize_unique_cover polys tr rows cols p hr hc j hcov huniq]
    refine List.mem_range'_1.mpr ⟨by omega, ?_⟩
    have := j.isLt
    omega

/-- C8 (counterexample): two polygons exactly tiling a 1×2 grid, with a
value slice holding the sentinel in one cell — the per-zone masked counts
sum to 1, not to the grid's total cell count 2, refuting the claimed
equality under exact tiling alone. -/
theorem tiling_count_sentinel_cex :
    (∀ p ∈ cellsOf 1 2, ∃ j : Fin ([⟨"A", fun _ _ c => decide (c = 0)⟩,
        ⟨"B", fun _ _ c => decide (c = 1)⟩] : List Polygon).length,
      (([⟨"A", fun _ _ c => decide (c = 0)⟩,
        ⟨"B", fun _ _ c => decide (c = 1)⟩] : List Polygon).get j).covers
          (Affine.translation 0 0) p.1 p.2 = true ∧
      ∀ k : Fin ([⟨"A", fun _ _ c => decide (c = 0)⟩,
        ⟨"B", fun _ _ c => decide (c = 1)⟩] : List Polygon).length,
        (([⟨"A", fun _ _ c => decide (c = 0)⟩,
          ⟨"B", fun _ _ c => decide (c = 1)⟩] : List Polygon).get k).covers
            (Affine.translation 0 0) p.1 p.2 = true → k = j) ∧
    ((List.range' 1 2).map (fun z =>
      nanCount (maskedStream 1 2 (rasterize (shapesOf
        [⟨"A", fun _ _ c => decide (c = 0)⟩, ⟨"B", fun _ _ c => decide (c = 1)⟩])
        (Affine.translation 0 0) 1 2) z 0
        [(⟨0, 0⟩, fun _ c => if c = 1 then some 1 else none)]))).sum = 1 ∧
    (1 : ℕ) ≠ 1 * 2 := by
  refine ⟨by decide, by decide, by decide⟩

theorem zone_counts_disjoint_bound_witness :
    (∀ z1 z2 : ℕ, z1 ≠ z2 → ∀ p : ℕ × ℕ,
      p ∈ zoneCells 1 2 (rasterize (shapesOf
        [⟨"A", fun _ _ c => decide (c = 0)⟩, ⟨"B", fun _ _ c => decide (c = 1)⟩])
        (Affine.translation 0 0) 1 2) z1 →
      p ∉ zoneCells 1 2 (rasterize (shapesOf
        [⟨"A", fun _ _ c => decide (c = 0)⟩, ⟨"B", fun _ _ c => decide (c = 1)⟩])
        (Affine.translation 0 0) 1 2) z2) ∧
    ((List.range' 1 2).map (fun z =>
      nanCount (maskedStream 1 2 (rasterize (shapesOf
        [⟨"A", fun _ _ c => decide (c = 0)⟩, ⟨"B", fun _ _ c => decide (c = 1)⟩])
        (Affine.translation 0 0) 1 2) z 0
        [(⟨0, 0⟩, fun _ _ => some 1)]))).sum ≤ 1 * 2 ∧
    ((List.range' 1 2).map (fun z =>
      nanCount (maskedStream 1 2 (rasterize (shapesOf
        [⟨"A", fun _ _ c => decide (c = 0)⟩, ⟨"B", fun _ _ c => decide (c = 1)⟩])
        (Affine.translation 0 0) 1 2) z 0
        [(⟨0, 0⟩, fun _ _ => some 1)]))).sum = 1 * 2 :=
  ⟨(zone_counts_disjoint_bound
      [⟨"A", fun _ _ c => decide (c = 0)⟩, ⟨"B", fun _ _ c => decide (c = 1)⟩]
      (Affine.translation 0 0) 1 2 ⟨0, 0⟩ (fun _ _ => some 1)).1,
   (zone_counts_disjoint_bound
      [⟨"A", fun _ _ c => decide (c = 0)⟩, ⟨"B", fun _ _ c => decide (c = 1)⟩]
      (Affine.translation 0 0) 1 2 ⟨0, 0⟩ (fun _ _ => some 1)).2.1,
   (zone_counts_disjoint_bound
      [⟨"A", fun _ _ c => decide (c = 0)⟩, ⟨"B", fun _ _ c => decide (c = 1)⟩]
      (Affine.translation 0 0) 1 2 ⟨0, 0⟩ (fun _ _ => some 1)).2.2
     (by decide) (by decide)⟩

theorem maskedStream_single (rows cols : ℕ) (mask : ℕ → ℕ → ℕ) (pid : ℕ)
    (st : Stamp) (s : Slice) :
    maskedStream rows cols mask pid 0 [(st, s)] =
      sliceStream rows cols mask pid s := by
  rw [maskedStream_eq_flatMap, List.flatMap_cons, List.flatMap_nil, List.append_nil]

theorem pooled_fold_exchange {β : Type} (op : β → β → β) (e : β)
    (hassoc : ∀ a b c, op (op a b) c = op a (op b c))
    (hcomm : ∀ a b, op a b = op b a) (hid : ∀ a, op e a = a)
    (times : List (Stamp × Slice)) (cells : List (ℕ × ℕ))
    (P : ℕ × ℕ → Prop) [DecidablePred P] (g : Stamp × Slice → ℕ × ℕ → β) :
    (times.flatMap (fun en =>
      cells.map (fun p => if P p then g en p else e))).foldr op e =
      ((cells.filter (fun p => decide (P p))).map (fun p =>
        (times.map (fun en => g en p)).foldr op e)).foldr op e := by
  rw [foldr_op_flatMap op e hassoc hid]
  have h1 : times.map (fun en =>
      (cells.map (fun p => if P p then g en p else e)).foldr op e) =
      times.map (fun en =>
        ((cells.filter (fun p => decide (P p))).map (g en)).foldr op e) :=
    List.map_congr_left (fun en _ => by rw [foldr_op_filter op e hid])
  rw [h1, ← foldr_op_flatMap op e hassoc hid,
    foldr_op_exchange op e hassoc hcomm hid]

theorem pooled_nanMin_resample (rows cols : ℕ) (mask : ℕ → ℕ → ℕ) (pid : ℕ)
    (times : List (Stamp × Slice)) :
    nanMin (maskedStream rows cols mask pid 0 times) =
      nanMin (sliceStream rows cols mask pid (timeReduceSlice nanMin times)) := by
  rw [maskedStream_eq_flatMap]
  have h1 : times.flatMap (fun en => sliceStream rows cols mask pid en.2) =
      times.flatMap (fun en => (cellsOf rows cols).map
        (fun p => if mask p.1 p.2 = pid then en.2 p.1 p.2 else none)) := by
    refine congrArg _ (funext (fun en => ?_))
    rw [sliceStream]
  rw [h1, nanMin,
    pooled_fold_exchange oMin none oMin_assoc oMin_comm oMin_id times
      (cellsOf rows cols) (fun p => mask p.1 p.2 = pid)
      (fun en p => en.2 p.1 p.2),
    sliceStream, nanMin,
    foldr_op_filter oMin none oMin_id (cellsOf rows cols)
      (fun p => mask p.1 p.2 = pid) (fun p => timeReduceSlice nanMin times p.1 p.2)]
  rfl

theorem pooled_nanMax_resample (rows cols : ℕ) (mask : ℕ → ℕ → ℕ) (pid : ℕ)
    (times : List (Stamp × Slice)) :
    nanMax (maskedStream rows cols mask pid 0 times) =
      nanMax (sliceStream rows cols mask pid (timeReduceSlice nanMax times)) := by
  rw [maskedStream_eq_flatMap]
  have h1 : times.flatMap (fun en => sliceStream rows cols mask pid en.2) =
      times.flatMap (fun en => (cellsOf rows cols).map
        (fun p => if mask p.1 p.2 = pid then en.2 p.1 p.2 else none)) := by
    refine congrArg _ (funext (fun en => ?_))
    rw [sliceStream]
  rw [h1, nanMax,
    pooled_fold_exchange oMax none oMax_assoc oMax_comm oMax_id times
      (cellsOf rows cols) (fun p => mask p.1 p.2 = pid)
      (fun en p => en.2 p.1 p.2),
    sliceStream, nanMax,
    foldr_op_filter oMax none oMax_id (cellsOf rows cols)
      (fun p => mask p.1 p.2 = pid) (fun p => timeReduceSlice nanMax times p.1 p.2)]
  rfl

theorem nanSum_eq_foldr_map (l : List (Option ℚ)) :
    nanSum l = (l.map (fun v => v.getD 0)).foldr (fun a b => a + b) 0 :=
  (List.foldr_map _ _ _ _).symm

theorem nanCount_eq_foldr_map (l : List (Option ℚ)) :
    nanCount l = (l.map (fun v => if v.isSome then 1 else 0)).foldr
      (fun a b => a + b) 0 := by
  induction l with
  | nil => rfl
  | cons v l ih =>
    rw [nanCount, List.countP_cons, List.map_cons, List.foldr_cons, ← nanCount, ih]
    by_cases hv : v.isSome <;> simp [hv] <;> omega

theorem pooled_nanSum (rows cols : ℕ) (mask : ℕ → ℕ → ℕ) (pid : ℕ)
    (times : List (Stamp × Slice)) :
    nanSum (maskedStream rows cols mask pid 0 times) =
      ((zoneCells rows cols mask pid).map (fun p =>
        nanSum (times.map (fun en => en.2 p.1 p.2)))).foldr (fun a b => a + b) 0 := by
  rw [maskedStream_eq_flatMap, nanSum_eq_foldr_map, List.map_flatMap]
  have h1 : times.map (fun en =>
      ((sliceStream rows cols mask pid en.2).map (fun v => v.getD 0))) =
      times.map (fun en => (cellsOf rows cols).map
        (fun p => if mask p.1 p.2 = pid then (en.2 p.1 p.2).getD 0 else 0)) := by
    refine List.map_congr_left (fun en _ => ?_)
    rw [sliceStream, List.map_map]
    refine List.map_congr_left (fun p _ => ?_)
    show ((if mask p.1 p.2 = pid then en.2 p.1 p.2 else none).getD 0) = _
    by_cases hm : mask p.1 p.2 = pid <;> simp [hm]
  have h2 : times.flatMap (fun en =>
      ((sliceStream rows cols mask pid en.2).map (fun v => v.getD 0))) =
      times.flatMap (fun en => (cellsOf rows cols).map
        (fun p => if mask p.1 p.2 = pid then (en.2 p.1 p.2).getD 0 else 0)) := by
    rw [List.flatMap_def, List.flatMap_def, h1]
  rw [h2, pooled_fold_exchange (fun a b : ℚ => a + b) 0
    (fun a b c => add_assoc a b c) (fun a b => add_comm a b)
    (fun a => zero_add a) times (cellsOf rows cols)
    (fun p => mask p.1 p.2 = pid) (fun en p => (en.2 p.1 p.2).getD 0)]
  rw [zoneCells]
  refine congrArg _ (List.map_congr_left (fun p _ => ?_))
  rw [nanSum_eq_foldr_map, List.map_map]
  rfl

theorem pooled_nanCount (rows cols : ℕ) (mask : ℕ → ℕ → ℕ) (pid : ℕ)
    (times : List (Stamp × Slice)) :
    nanCount (maskedStream rows cols mask pid 0 times) =
      ((zoneCells rows cols mask pid).map (fun p =>
        nanCount (times.map (fun en => en.2 p.1 p.2)))).foldr (fun a b => a + b) 0 := by
  rw [maskedStream_eq_flatMap, nanCount_eq_foldr_map, List.map_flatMap]
  have h2 : times.flatMap (fun en =>
      ((sliceStream rows cols mask pid en.2).map (fun v => if v.isSome then 1 else 0))) =
      times.flatMap (fun en => (cellsOf rows cols).map
        (fun p => if mask p.1 p.2 = pid then (if (en.2 p.1 p.2).isSome then 1 else 0) else 0)) := by
    rw [List.flatMap_def, List.flatMap_def]
    refine congrArg _ (List.map_congr_left (fun en _ => ?_))
    rw [sliceStream, List.map_map]
    refine List.map_congr_left (fun p _ => ?_)
    show (if (if mask p.1 p.2 = pid then en.2 p.1 p.2 else none).isSome then 1 else 0) = _
    by_cases hm : mask p.1 p.2 = pid <;> simp [hm]
  rw [h2, pooled_fold_exchange (fun a b : ℕ => a + b) 0
    (fun a b c => add_assoc a b c) (fun a b => add_comm a b)
    (fun a => zero_add a) times (cellsOf rows cols)
    (fun p => mask p.1 p.2 = pid)
    (fun en p => if (en.2 p.1 p.2).isSome then 1 else 0)]
  rw [zoneCells]
  refine congrArg _ (List.map_congr_left (fun p _ => ?_))
  rw [nanCount_eq_foldr_map, List.map_map]
  rfl

theorem foldr_add_map_div {α : Type} (l : List α) (f : α → ℚ) (d : ℚ) :
    (l.map (fun a => f a / d)).foldr (fun a b => a + b) 0 =
      ((l.map f).foldr (fun a b => a + b) 0) / d := by
  induction l with
  | nil => exact (zero_div d).symm
  | cons a l ih =>
    rw [List.map_cons, List.foldr_cons, ih, List.map_cons, List.foldr_cons,
      div_add_div_same]

theorem pooled_nanMean_resample (rows cols : ℕ) (mask : ℕ → ℕ → ℕ) (pid : ℕ)
    (times : List (Stamp × Slice))
    (hval : ∀ en ∈ times, ∀ p ∈ zoneCells rows cols mask pid,
      (en.2 p.1 p.2).isSome = true) :
    nanMean (maskedStream rows cols mask pid 0 times) =
      nanMean (sliceStream rows cols mask pid (timeReduceSlice nanMean times)) := by
  have hcell : ∀ p ∈ zoneCells rows cols mask pid,
      nanCount (times.map (fun en => en.2 p.1 p.2)) = times.length := by
    intro p hp
    rw [nanCount, List.countP_map]
    exact List.countP_eq_length.mpr (fun en hen => hval en hen p hp)
  have hLcount : nanCount (maskedStream rows cols mask pid 0 times) =
      (zoneCells rows cols mask pid).length * times.length := by
    rw [pooled_nanCount]
    have h1 : (zoneCells rows cols mask pid).map (fun p =>
        nanCount (times.map (fun en => en.2 p.1 p.2))) =
        (zoneCells rows cols mask pid).map (fun _ => times.length) :=
      List.map_congr_left (fun p hp => hcell p hp)
    rw [h1]
    exact sum_map_const _ _
  by_cases hT : times.length = 0
  · have htimes : times = [] := List.length_eq_zero.mp hT
    subst htimes
    have hR : nanCount (sliceStream rows cols mask pid
        (timeReduceSlice nanMean [])) = 0 := by
      rw [sliceStream, nanCount, List.countP_map]
      refine (countP_congr_mem _ _ (fun _ => false) (fun p hp => ?_)).trans
        (congrFun List.countP_false (cellsOf rows cols))
      show ((if mask p.1 p.2 = pid then timeReduceSlice nanMean [] p.1 p.2
        else none).isSome) = false
      by_cases hm : mask p.1 p.2 = pid <;>
        simp [hm, timeReduceSlice, nanMean, nanCount]
    rw [nanMean, nanMean, hR]
    rfl
  · by_cases hz : (zoneCells rows cols mask pid).length = 0
    · have hR : nanCount (sliceStream rows cols mask pid
          (timeReduceSlice nanMean times)) = 0 := by
        rw [← maskedStream_single rows cols mask pid ⟨0, 0⟩, nanCount_single_slice]
        have hle : (cellsOf rows cols).countP (fun p =>
            decide (mask p.1 p.2 = pid) &&
              (timeReduceSlice nanMean times p.1 p.2).isSome) ≤
            (cellsOf rows cols).countP (fun p => decide (mask p.1 p.2 = pid)) := by
          refine List.countP_mono_left (fun p _ hp => ?_)
          rw [Bool.and_eq_true] at hp
          exact hp.1
        have hPz : (cellsOf rows cols).countP
            (fun p => decide (mask p.1 p.2 = pid)) = 0 := by
          rw [List.countP_eq_length_filter]
          exact hz
        omega
      rw [nanMean, nanMean, hR, hLcount, hz, Nat.zero_mul]
      rfl
    · have hσ : ∀ p ∈ zoneCells rows cols mask pid,
          timeReduceSlice nanMean times p.1 p.2 =
            some (nanSum (times.map (fun en => en.2 p.1 p.2)) / (times.length : ℚ)) := by
        intro p hp
        show nanMean (times.map (fun en => en.2 p.1 p.2)) = _
        rw [nanMean, hcell p hp, if_neg hT]
      have hRcount : nanCount (sliceStream rows cols mask pid
          (timeReduceSlice nanMean times)) =
          (zoneCells rows cols mask pid).length := by
        rw [← maskedStream_single rows cols mask pid ⟨0, 0⟩, nanCount_single_slice]
        have h1 : (cellsOf rows cols).countP (fun p =>
            decide (mask p.1 p.2 = pid) &&
              (timeReduceSlice nanMean times p.1 p.2).isSome) =
            (cellsOf rows cols).countP (fun p => decide (mask p.1 p.2 = pid)) := by
          refine countP_congr_mem _ _ _ (fun p hp => ?_)
          by_cases hm : mask p.1 p.2 = pid
          · have hpz : p ∈ zoneCells rows cols mask pid :=
              List.mem_filter.mpr ⟨hp, decide_eq_true hm⟩
            rw [hσ p hpz]
            simp [hm]
          · simp [hm]
        rw [h1, List.countP_eq_length_filter]
        rfl
      have hRsum : nanSum (sliceStream rows cols mask pid
          (timeReduceSlice nanMean times)) =
          ((zoneCells rows cols mask pid).map (fun p =>
            nanSum (times.map (fun en => en.2 p.1 p.2)))).foldr
              (fun a b => a + b) 0 / (times.length : ℚ) := by
        rw [← maskedStream_single rows cols mask pid ⟨0, 0⟩, pooled_nanSum]
        have h1 : (zoneCells rows cols mask pid).map (fun p =>
            nanSum (([(⟨0, 0⟩, timeReduceSlice nanMean times)] :
              List (Stamp × Slice)).map (fun en => en.2 p.1 p.2))) =
            (zoneCells rows cols mask pid).map (fun p =>
              nanSum (times.map (fun en => en.2 p.1 p.2)) / (times.length : ℚ)) := by
          refine List.map_congr_left (fun p hp => ?_)
          show nanSum [timeReduceSlice nanMean times p.1 p.2] = _
          rw [hσ p hp, nanSum, List.foldr_cons, List.foldr_nil]
          show nanSum (times.map (fun en => en.2 p.1 p.2)) / (times.length : ℚ) + 0 = _
          rw [add_zero]
        rw [h1, foldr_add_map_div]
      rw [nanMean, nanMean, hLcount, hRcount, hRsum, pooled_nanSum,
        if_neg (Nat.mul_ne_zero hz hT), if_neg hz]
      rw [div_div, Nat.cast_mul, mul_comm]

/-- C6 (amended): for each bucket, the per-zone min (resp. max) equals the
zonal reduction of the slice obtained by first taking the per-cell min
(resp. max) along the time axis, and the per-zone sum is computed directly
over the bucket's raw cells; the analogous decomposition for the mean
(zonal reduction of the per-cell time-mean slice) holds when the bucket
contains no sentinel cells on the zone, but not in general. -/
theorem bucket_stats_decomposition (cube : Cube) (polys : List Polygon)
    (tr : Affine) (res : ZonalResult) (i : ℕ)
    (htr : deriveTransform cube.grid.lats cube.grid.lons = Except.ok tr)
    (hres : zonal_aggregation cube polys = Except.ok res)
    (hi : i < polys.length) :
    (res.mins.get? i = some (nanMin (maskedStream cube.grid.lats.length
        cube.grid.lons.length (rasterize (shapesOf polys) tr
          cube.grid.lats.length cube.grid.lons.length) (1 + i) 0
        [(⟨0, 0⟩, timeReduceSlice nanMin cube.times)])) ∧
      res.maxs.get? i = some (nanMax (maskedStream cube.grid.lats.length
        cube.grid.lons.length (rasterize (shapesOf polys) tr
          cube.grid.lats.length cube.grid.lons.length) (1 + i) 0
        [(⟨0, 0⟩, timeReduceSlice nanMax cube.times)])) ∧
      res.totals.get? i = some (some (nanSum (maskedStream cube.grid.lats.length
        cube.grid.lons.length (rasterize (shapesOf polys) tr
          cube.grid.lats.length cube.grid.lons.length) (1 + i) 0 cube.times)))) ∧
    ((∀ en ∈ cube.times, ∀ p ∈ zoneCells cube.grid.lats.length
        cube.grid.lons.length (rasterize (shapesOf polys) tr
          cube.grid.lats.length cube.grid.lons.length) (1 + i),
        (en.2 p.1 p.2).isSome = true) →
      res.means.get? i = some (nanMean (maskedStream cube.grid.lats.length
        cube.grid.lons.length (rasterize (shapesOf polys) tr
          cube.grid.lats.length cube.grid.lons.length) (1 + i) 0
        [(⟨0, 0⟩, timeReduceSlice nanMean cube.times)]))) := by
  have hok := zonal_aggregation_ok cube.grid polys cube.times tr htr
  rw [show (⟨cube.grid, cube.times⟩ : Cube) = cube from rfl, hres] at hok
  injection hok with hres2
  subst hres2
  rw [reduceWithMask]
  refine ⟨⟨?_, ?_, ?_⟩, fun hval => ?_⟩ <;>
    simp only [List.get?_map, range_get_eq 1 polys.length i hi, Option.map_some']
  · rw [maskedStream_single, pooled_nanMin_resample]
  · rw [maskedStream_single, pooled_nanMax_resample]
  · rw [maskedStream_single, pooled_nanMean_resample _ _ _ _ _ hval]

/-- C6 (counterexample): one polygon covering a 1×2 grid over a two-hour
bucket with one sentinel cell — the pooled mean the code computes is 2,
while hour-to-day resampling (zonal mean of the per-cell time-mean slice)
gives 3, refuting the claimed decomposition for the mean. -/
theorem daily_mean_resample_cex :
    nanMean (maskedStream 1 2 (rasterize (shapesOf [⟨"P", fun _ _ _ => true⟩])
        (Affine.translation 0 0) 1 2) 1 0
        [(⟨0, 0⟩, fun _ c => if c = 0 then some 0 else none),
         (⟨0, 1⟩, fun _ c => if c = 0 then some 0 else some 6)]) = some (2 : ℚ) ∧
    nanMean (maskedStream 1 2 (rasterize (shapesOf [⟨"P", fun _ _ _ => true⟩])
        (Affine.translation 0 0) 1 2) 1 0
        [(⟨0, 0⟩, timeReduceSlice nanMean
          [(⟨0, 0⟩, fun _ c => if c = 0 then some 0 else none),
           (⟨0, 1⟩, fun _ c => if c = 0 then some 0 else some 6)])]) = some (3 : ℚ) ∧
    some (2 : ℚ) ≠ some (3 : ℚ) := by
  refine ⟨?_, ?_, by decide⟩
  · have h1 : maskedStream 1 2 (rasterize (shapesOf [⟨"P", fun _ _ _ => true⟩])
        (Affine.translation 0 0) 1 2) 1 0
        [(⟨0, 0⟩, fun _ c => if c = 0 then some 0 else none),
         (⟨0, 1⟩, fun _ c => if c = 0 then some 0 else some 6)] =
        [some 0, none, some 0, some 6] := by decide
    rw [h1, nanMean]
    rw [show nanCount [some (0 : ℚ), none, some 0, some 6] = 3 from by decide]
    norm_num [nanSum]
  · have h2 : timeReduceSlice nanMean
        [(⟨0, 0⟩, fun _ c => if c = 0 then some 0 else none),
         (⟨0, 1⟩, fun _ c => if c = 0 then some 0 else some 6)] 0 0 = some 0 := by
      show nanMean [some 0, some 0] = some 0
      rw [nanMean, show nanCount [some (0 : ℚ), some 0] = 2 from by decide]
      norm_num [nanSum]
    have h3 : timeReduceSlice nanMean
        [(⟨0, 0⟩, fun _ c => if c = 0 then some 0 else none),
         (⟨0, 1⟩, fun _ c => if c = 0 then some 0 else some 6)] 0 1 = some 6 := by
      show nanMean [none, some 6] = some 6
      rw [nanMean, show nanCount [(none : Option ℚ), some 6] = 1 from by decide]
      norm_num [nanSum]
    rw [maskedStream_single, sliceStream,
      show cellsOf 1 2 = [(0, 0), (0, 1)] from by decide,
      List.map_cons, List.map_cons, List.map_nil,
      if_pos (show rasterize (shapesOf [⟨"P", fun _ _ _ => true⟩])
        (Affine.translation 0 0) 1 2 0 0 = 1 from by decide),
      if_pos (show rasterize (shapesOf [⟨"P", fun _ _ _ => true⟩])
        (Affine.translation 0 0) 1 2 0 1 = 1 from by decide),
      h2, h3]
    rw [nanMean, show nanCount [some (0 : ℚ), some 6] = 2 from by decide]
    norm_num [nanSum]

theorem bucket_stats_decomposition_witness :
    ((reduceWithMask 2 2 (rasterize (shapesOf
          [⟨"Q", fun _ r c => decide (r = 0 ∧ c = 0)⟩])
          ((Affine.translation 0 0).mul (Affine.scale (1 - 0) (1 - 0))) 2 2) 1
          [(⟨0, 0⟩, fun _ _ => some 5)]).mins.get? 0 =
        some (nanMin (maskedStream 2 2 (rasterize (shapesOf
          [⟨"Q", fun _ r c => decide (r = 0 ∧ c = 0)⟩])
          ((Affine.translation 0 0).mul (Affine.scale (1 - 0) (1 - 0))) 2 2) 1 0
          [(⟨0, 0⟩, timeReduceSlice nanMin [(⟨0, 0⟩, fun _ _ => some 5)])])) ∧
      (reduceWithMask 2 2 (rasterize (shapesOf
          [⟨"Q", fun _ r c => decide (r = 0 ∧ c = 0)⟩])
          ((Affine.translation 0 0).mul (Affine.scale (1 - 0) (1 - 0))) 2 2) 1
          [(⟨0, 0⟩, fun _ _ => some 5)]).maxs.get? 0 =
        some (nanMax (maskedStream 2 2 (rasterize (shapesOf
          [⟨"Q", fun _ r c => decide (r = 0 ∧ c = 0)⟩])
          ((Affine.translation 0 0).mul (Affine.scale (1 - 0) (1 - 0))) 2 2) 1 0
          [(⟨0, 0⟩, timeReduceSlice nanMax [(⟨0, 0⟩, fun _ _ => some 5)])])) ∧
      (reduceWithMask 2 2 (rasterize (shapesOf
          [⟨"Q", fun _ r c => decide (r = 0 ∧ c = 0)⟩])
          ((Affine.translation 0 0).mul (Affine.scale (1 - 0) (1 - 0))) 2 2) 1
          [(⟨0, 0⟩, fun _ _ => some 5)]).totals.get? 0 =
        some (some (nanSum (maskedStream 2 2 (rasterize (shapesOf
          [⟨"Q", fun _ r c => decide (r = 0 ∧ c = 0)⟩])
          ((Affine.translation 0 0).mul (Affine.scale (1 - 0) (1 - 0))) 2 2) 1 0
          [(⟨0, 0⟩, fun _ _ => some 5)])))) ∧
    (reduceWithMask 2 2 (rasterize (shapesOf
        [⟨"Q", fun _ r c => decide (r = 0 ∧ c = 0)⟩])
        ((Affine.translation 0 0).mul (Affine.scale (1 - 0) (1 - 0))) 2 2) 1
        [(⟨0, 0⟩, fun _ _ => some 5)]).means.get? 0 =
      some (nanMean (maskedStream 2 2 (rasterize (shapesOf
        [⟨"Q", fun _ r c => decide (r = 0 ∧ c = 0)⟩])
        ((Affine.translation 0 0).mul (Affine.scale (1 - 0) (1 - 0))) 2 2) 1 0
        [(⟨0, 0⟩, timeReduceSlice nanMean [(⟨0, 0⟩, fun _ _ => some 5)])])) :=
  ⟨(bucket_stats_decomposition
      ⟨⟨[0, 1], [0, 1]⟩, [(⟨0, 0⟩, fun _ _ => some 5)]⟩
      [⟨"Q", fun _ r c => decide (r = 0 ∧ c = 0)⟩]
      ((Affine.translation 0 0).mul (Affine.scale (1 - 0) (1 - 0))) _ 0 rfl
      (zonal_aggregation_ok ⟨[0, 1], [0, 1]⟩
        [⟨"Q", fun _ r c => decide (r = 0 ∧ c = 0)⟩]
        [(⟨0, 0⟩, fun _ _ => some 5)]
        ((Affine.translation 0 0).mul (Affine.scale (1 - 0) (1 - 0))) rfl)
      (by decide)).1,
   (bucket_stats_decomposition
      ⟨⟨[0, 1], [0, 1]⟩, [(⟨0, 0⟩, fun _ _ => some 5)]⟩
      [⟨"Q", fun _ r c => decide (r = 0 ∧ c = 0)⟩]
      ((Affine.translation 0 0).mul (Affine.scale (1 - 0) (1 - 0))) _ 0 rfl
      (zonal_aggregation_ok ⟨[0, 1], [0, 1]⟩
        [⟨"Q", fun _ r c => decide (r = 0 ∧ c = 0)⟩]
        [(⟨0, 0⟩, fun _ _ => some 5)]
        ((Affine.translation 0 0).mul (Affine.scale (1 - 0) (1 - 0))) rfl)
      (by decide)).2 (by decide)⟩

theorem mem_insertAsc (d x : ℕ) (l : List ℕ) :
    x ∈ insertAsc d l ↔ x = d ∨ x ∈ l := by
  induction l with
  | nil => simp [insertAsc]
  | cons y ys ih =>
    rw [insertAsc]
    by_cases h1 : d < y
    · simp [h1]
    · by_cases h2 : d = y
      · subst h2
        rw [if_neg h1, if_pos rfl]
        constructor
        · exact fun hm => Or.inr hm
        · rintro (rfl | hm)
          · exact List.mem_cons_self x ys
          · exact hm
      · rw [if_neg h1, if_neg h2]
        rw [List.mem_cons, ih, List.mem_cons]
        tauto

theorem insertAsc_pairwise (d : ℕ) (l : List ℕ)
    (h : List.Pairwise (fun a b => a < b) l) :
    List.Pairwise (fun a b => a < b) (insertAsc d l) := by
  induction l with
  | nil => simp [insertAsc]
  | cons y ys ih =>
    rw [insertAsc]
    rcases List.pairwise_cons.mp h with ⟨hy, hys⟩
    by_cases h1 : d < y
    · rw [if_pos h1]
      refine List.pairwise_cons.mpr ⟨?_, h⟩
      intro b hb
      rcases List.mem_cons.mp hb with rfl | hb
      · exact h1
      · exact lt_trans h1 (hy b hb)
    · by_cases h2 : d = y
      · rw [if_neg h1, if_pos h2]
        exact h
      · rw [if_neg h1, if_neg h2]
        refine List.pairwise_cons.mpr ⟨?_, ih hys⟩
        intro b hb
        rcases (mem_insertAsc d b ys).mp hb with rfl | hb
        · omega
        · exact hy b hb

theorem uniqueDates_pairwise (times : List (Stamp × Slice)) :
    List.Pairwise (fun a b => a < b) (uniqueDates times) := by
  rw [uniqueDates]
  induction times.map (fun e => e.1.date) with
  | nil => exact List.Pairwise.nil
  | cons d ds ih => exact insertAsc_pairwise d _ ih

theorem range_map_getD {α β : Type} (xs : List α) (f : α → β) (dflt : β) :
    (List.range xs.length).map (fun i => ((xs.get? i).map f).getD dflt) =
      xs.map f := by
  induction xs with
  | nil => rfl
  | cons x xs ih =>
    rw [List.length_cons, List.range_succ_eq_map, List.map_cons, List.map_map]
    show f x :: List.map ((fun i => ((((x :: xs).get? i).map f).getD dflt)) ∘
      (fun i => i + 1)) (List.range xs.length) = f x :: xs.map f
    congr 1

theorem rowsFor_proj (d : ℕ) (polys : List Polygon) (res : ZonalResult) :
    (rowsFor d polys res).map (fun r => (r.date, r.location)) =
      polys.map (fun p => (d, p.location)) := by
  rw [rowsFor, List.map_map,
    ← range_map_getD polys (fun p => (d, p.location)) (d, "")]
  refine List.map_congr_left (fun i _ => ?_)
  show (d, ((polys.get? i).map Polygon.location).getD "") =
    ((polys.get? i).map (fun p => (d, p.location))).getD (d, "")
  cases polys.get? i <;> rfl

theorem flatMap_congr_mem {α β : Type} (l : List α) (f g : α → List β)
    (h : ∀ a ∈ l, f a = g a) : l.flatMap f = l.flatMap g := by
  rw [List.flatMap_def, List.flatMap_def]
  exact congrArg List.flatten (List.map_congr_left h)

/-- C2 (amended): the observable output of `daily_aggregation` — the
sequence of printed rows; the Python function itself returns `None` —
carries exactly one row per (day, zone) pair, the days being the cube's
unique dates in strictly ascending order and, within a day, the zones in
polygon input order; each row carries date, zone name (the `location`
column), mean, max, min and sum, but no valid-cell count. -/
theorem daily_aggregation_rows_shape (cube : Cube) (polys : List Polygon)
    (tr : Affine) (rows : List Row)
    (htr : deriveTransform cube.grid.lats cube.grid.lons = Except.ok tr)
    (hrows : daily_aggregation cube polys = Except.ok rows) :
    rows.map (fun r => (r.date, r.location)) =
      (uniqueDates cube.times).flatMap (fun d =>
        polys.map (fun p => (d, p.location))) ∧
    List.Pairwise (fun a b => a < b) (uniqueDates cube.times) := by
  refine ⟨?_, uniqueDates_pairwise cube.times⟩
  rw [daily_aggregation_ok cube polys tr htr] at hrows
  injection hrows with h
  subst h
  rw [List.map_flatMap]
  have h1 : (groupByDate cube.times).flatMap (fun g =>
      (rowsFor g.1 polys (reduceWithMask cube.grid.lats.length
        cube.grid.lons.length (rasterize (shapesOf polys) tr
          cube.grid.lats.length cube.grid.lons.length)
        polys.length g.2)).map (fun r => (r.date, r.location))) =
      (groupByDate cube.times).flatMap (fun g =>
        polys.map (fun p => (g.1, p.location))) :=
    flatMap_congr_mem _ _ _ (fun g _ => rowsFor_proj g.1 polys _)
  rw [h1, groupByDate, List.flatMap_def, List.map_map, List.flatMap_def]
  rfl

/-- C2 (counterexample): two runs whose printed rows are identical but
whose zones have different valid-cell counts (1 vs 2) — so the output
records cannot carry the valid-cell count the claim says each record
carries, and the Python function moreover returns `None`, not the rows. -/
theorem daily_rows_no_count_cex :
    daily_aggregation ⟨⟨[0, 1], [0, 1]⟩,
        [(⟨0, 0⟩, fun r c => if r = 0 ∧ c = 0 then some 0 else none)]⟩
        [⟨"P", fun _ r c => decide (r = 0 ∧ c = 0)⟩] =
      daily_aggregation ⟨⟨[0, 1], [0, 1]⟩,
        [(⟨0, 0⟩, fun r _ => if r = 0 then some 0 else none)]⟩
        [⟨"P", fun _ r _ => decide (r = 0)⟩] ∧
    nanCount (maskedStream 2 2 (rasterize (shapesOf
        [⟨"P", fun _ r c => decide (r = 0 ∧ c = 0)⟩])
        ((Affine.translation 0 0).mul (Affine.scale (1 - 0) (1 - 0))) 2 2) 1 0
        [(⟨0, 0⟩, fun r c => if r = 0 ∧ c = 0 then some 0 else none)]) = 1 ∧
    nanCount (maskedStream 2 2 (rasterize (shapesOf
        [⟨"P", fun _ r _ => decide (r = 0)⟩])
        ((Affine.translation 0 0).mul (Affine.scale (1 - 0) (1 - 0))) 2 2) 1 0
        [(⟨0, 0⟩, fun r _ => if r = 0 then some 0 else none)]) = 2 ∧
    (1 : ℕ) ≠ 2 := by
  refine ⟨?_, by decide, by decide, by decide⟩
  have hA : daily_aggregation ⟨⟨[0, 1], [0, 1]⟩,
      [(⟨0, 0⟩, fun r c => if r = 0 ∧ c = 0 then some 0 else none)]⟩
      [⟨"P", fun _ r c => decide (r = 0 ∧ c = 0)⟩] =
      Except.ok [⟨0, "P", some 0, some 0, some 0, some 0⟩] := by
    rw [daily_aggregation_ok ⟨⟨[0, 1], [0, 1]⟩,
      [(⟨0, 0⟩, fun r c => if r = 0 ∧ c = 0 then some 0 else none)]⟩
      [⟨"P", fun _ r c => decide (r = 0 ∧ c = 0)⟩]
      ((Affine.translation 0 0).mul (Affine.scale (1 - 0) (1 - 0))) rfl]
    show Except.ok [(⟨0, "P", nanMean [some 0, none, none, none],
      nanMax [some 0, none, none, none], nanMin [some 0, none, none, none],
      some (nanSum [some 0, none, none, none])⟩ : Row)] = _
    rw [show nanMean [some (0 : ℚ), none, none, none] = some 0 from by
        rw [nanMean, show nanCount [some (0 : ℚ), none, none, none] = 1 from by decide]
        norm_num [nanSum],
      show nanMax [some (0 : ℚ), none, none, none] = some 0 from by decide,
      show nanMin [some (0 : ℚ), none, none, none] = some 0 from by decide,
      show nanSum [some (0 : ℚ), none, none, none] = 0 from by norm_num [nanSum]]
  have hB : daily_aggregation ⟨⟨[0, 1], [0, 1]⟩,
      [(⟨0, 0⟩, fun r _ => if r = 0 then some 0 else none)]⟩
      [⟨"P", fun _ r _ => decide (r = 0)⟩] =
      Except.ok [⟨0, "P", some 0, some 0, some 0, some 0⟩] := by
    rw [daily_aggregation_ok ⟨⟨[0, 1], [0, 1]⟩,
      [(⟨0, 0⟩, fun r _ => if r = 0 then some 0 else none)]⟩
      [⟨"P", fun _ r _ => decide (r = 0)⟩]
      ((Affine.translation 0 0).mul (Affine.scale (1 - 0) (1 - 0))) rfl]
    show Except.ok [(⟨0, "P", nanMean [some 0, some 0, none, none],
      nanMax [some 0, some 0, none, none], nanMin [some 0, some 0, none, none],
      some (nanSum [some 0, some 0, none, none])⟩ : Row)] = _
    rw [show nanMean [some (0 : ℚ), some 0, none, none] = some 0 from by
        rw [nanMean, show nanCount [some (0 : ℚ), some 0, none, none] = 2 from by decide]
        norm_num [nanSum],
      show nanMax [some (0 : ℚ), some 0, none, none] = some 0 from by decide,
      show nanMin [some (0 : ℚ), some 0, none, none] = some 0 from by decide,
      show nanSum [some (0 : ℚ), some 0, none, none] = 0 from by norm_num [nanSum]]
  exact hA.trans hB.symm

theorem daily_aggregation_rows_shape_witness :
    ((groupByDate [(⟨0, 0⟩, fun r c => if r = 0 ∧ c = 0 then some (5 : ℚ) else none)]).flatMap
        (fun g => rowsFor g.1 [⟨"P", fun _ r c => decide (r = 0 ∧ c = 0)⟩]
          (reduceWithMask 2 2 (rasterize (shapesOf
            [⟨"P", fun _ r c => decide (r = 0 ∧ c = 0)⟩])
            ((Affine.translation 0 0).mul (Affine.scale (1 - 0) (1 - 0))) 2 2)
            1 g.2))).map (fun r => (r.date, r.location)) =
      (uniqueDates [(⟨0, 0⟩, fun r c => if r = 0 ∧ c = 0 then some (5 : ℚ) else none)]).flatMap
        (fun d => ([⟨"P", fun _ r c => decide (r = 0 ∧ c = 0)⟩] : List Polygon).map
          (fun p => (d, p.location))) ∧
    List.Pairwise (fun a b => a < b)
      (uniqueDates [(⟨0, 0⟩, fun r c => if r = 0 ∧ c = 0 then some (5 : ℚ) else none)]) :=
  daily_aggregation_rows_shape
    ⟨⟨[0, 1], [0, 1]⟩, [(⟨0, 0⟩, fun r c => if r = 0 ∧ c = 0 then some (5 : ℚ) else none)]⟩
    [⟨"P", fun _ r c => decide (r = 0 ∧ c = 0)⟩]
    ((Affine.translation 0 0).mul (Affine.scale (1 - 0) (1 - 0))) _ rfl
    (daily_aggregation_ok
      ⟨⟨[0, 1], [0, 1]⟩, [(⟨0, 0⟩, fun r c => if r = 0 ∧ c = 0 then some (5 : ℚ) else none)]⟩
      [⟨"P", fun _ r c => decide (r = 0 ∧ c = 0)⟩]
      ((Affine.translation 0 0).mul (Affine.scale (1 - 0) (1 - 0))) rfl)
